import Mathlib

/-!
# Verification of the jest-swag spec-collection and document-synthesis core

A shallow embedding of the repository's core (the declaration DSL in
`src/plugins/built-in/postman-plugin.ts`, the accumulator in
`src/utils/index.ts`, and the synthesizer in
`src/generator/openapi-generator.ts`), together with theorems settling the
frozen claims about it.

JavaScript runtime values are modelled explicitly: primitives are carried
inline, objects and arrays live in an explicit heap addressed by `Nat`, and a
property may be declared `throwing` to model an accessor whose read throws.
Host-environment functions that are not part of the repository
(`Date.parse`, `new URL`, `JSON.stringify`) are passed in as explicit
parameters so that theorems quantify over them.
-/

namespace JestSwag

/-- A JavaScript runtime value: primitives inline, objects/arrays as heap
references.  Numbers are modelled as rationals; `Number.isInteger` becomes
"denominator 1". -/
inductive JSVal : Type where
  | vNull : JSVal
  | vUndefined : JSVal
  | vBool : Bool → JSVal
  | vNum : Rat → JSVal
  | vStr : String → JSVal
  | vRef : Nat → JSVal
  deriving DecidableEq, Repr, Inhabited

/-- A property slot of a JS object/array: either an ordinary data value or an
accessor whose read throws. -/
inductive JSProp : Type where
  | val : JSVal → JSProp
  | throwing : JSProp
  deriving DecidableEq, Repr, Inhabited

/-- A heap object: an array (element slots in order) or a plain object
(own-enumerable fields in `Object.keys` order). -/
inductive HObj : Type where
  | arr : List JSProp → HObj
  | obj : List (String × JSProp) → HObj
  deriving DecidableEq, Repr, Inhabited

/-- The JS heap: address `a` denotes `heap[a]`. -/
abbrev Heap : Type := List HObj

/-- Heap lookup; a dangling reference (impossible in real JS) defaults to an
empty object. -/
def Heap.get (h : Heap) (a : Nat) : HObj :=
  (List.get? h a).getD (.obj [])

/-- The shape of an inferred `example` field: a primitive/reference value, a
freshly-built one-element (or empty) array, or a freshly-built object of
key/value pairs. -/
inductive JSEx : Type where
  | jv : JSVal → JSEx
  | jarr : List JSVal → JSEx
  | jobj : List (String × JSVal) → JSEx
  deriving DecidableEq, Repr, Inhabited

/-- The OpenAPI `Schema` interface of `src/utils/index.ts` (all fields
optional).  Recursive through `properties` / `items` / `allOf` / `oneOf` /
`anyOf`, hence an inductive with explicit projections below. -/
inductive Schema : Type where
  | mk (type format description : Option String)
       (properties : Option (List (String × Schema)))
       (items : Option Schema)
       (required : Option (List String))
       (exampleVal : Option JSEx)
       (enum : Option (List JSVal))
       (allOf oneOf anyOf : Option (List Schema))
       (minimum maximum : Option Rat)
       (pattern : Option String)
       (default : Option JSVal) : Schema

def Schema.type : Schema → Option String
  | .mk t _ _ _ _ _ _ _ _ _ _ _ _ _ _ => t

def Schema.format : Schema → Option String
  | .mk _ f _ _ _ _ _ _ _ _ _ _ _ _ _ => f

def Schema.description : Schema → Option String
  | .mk _ _ d _ _ _ _ _ _ _ _ _ _ _ _ => d

def Schema.properties : Schema → Option (List (String × Schema))
  | .mk _ _ _ p _ _ _ _ _ _ _ _ _ _ _ => p

def Schema.items : Schema → Option Schema
  | .mk _ _ _ _ i _ _ _ _ _ _ _ _ _ _ => i

def Schema.required : Schema → Option (List String)
  | .mk _ _ _ _ _ r _ _ _ _ _ _ _ _ _ => r

def Schema.exampleVal : Schema → Option JSEx
  | .mk _ _ _ _ _ _ e _ _ _ _ _ _ _ _ => e

/-- Schema literal with only the fields the inference engine ever produces
(`type`, `format`, `description`, `properties`, `items`, `required`,
`example`); the remaining authored-only fields are absent. -/
def mkS (type format description : Option String)
    (properties : Option (List (String × Schema)))
    (items : Option Schema)
    (required : Option (List String))
    (exampleVal : Option JSEx) : Schema :=

  .mk type format description properties items required exampleVal
    none none none none none none none none

/-- The `{}` (unknown/any) schema. -/
def emptySchema : Schema := mkS none none none none none none none

/-- `Parameter.in` locations. -/
inductive ParamLoc : Type where
  | query | header | pathLoc | cookie
  deriving DecidableEq, Repr

/-- `Parameter` of `src/utils/index.ts` (`in` is `inLocation` here). -/
structure Parameter : Type where
  name : String
  inLocation : ParamLoc
  description : Option String := none
  required : Option Bool := none
  schema : Schema
  exampleVal : Option JSEx := none

/-- One media-type entry of a `content` map: `{schema, example}`. -/
structure MediaEntry : Type where
  schema : Schema
  exampleVal : Option JSEx := none

/-- `RequestBody` of `src/utils/index.ts`. -/
structure RequestBody : Type where
  description : Option String := none
  required : Option Bool := none
  content : List (String × MediaEntry)

/-- `Header` of `src/utils/index.ts`. -/
structure HeaderObj : Type where
  description : Option String := none
  schema : Schema

/-- `Response` of `src/utils/index.ts`. -/
structure Response : Type where
  description : String
  content : Option (List (String × MediaEntry)) := none
  headers : Option (List (String × HeaderObj)) := none

/-- `SecurityRequirement`: scheme name to scope list. -/
abbrev SecurityRequirement : Type := List (String × List String)

/-- `ApiSpec` of `src/utils/index.ts`.  The TypeScript interface declares
`path`/`method` as required strings, but snapshots are built from a
`Partial<ApiSpec>` and cast, so at runtime they may be `undefined`; we model
them as `Option String` to capture that. -/
structure ApiSpec : Type where
  path : Option String
  method : Option String
  summary : Option String := none
  description : Option String := none
  tags : Option (List String) := none
  parameters : Option (List Parameter) := none
  requestBody : Option RequestBody := none
  responses : List (String × Response)
  security : Option (List SecurityRequirement) := none

/-! ## Accumulator (`src/utils/index.ts`) -/

/-- JS template-literal rendering of a possibly-`undefined` string (as in
`` `${spec.path}` ``). -/
def jsShow : Option String → String
  | none => "undefined"
  | some s => s

/-- `getSpecKey` of `src/utils/index.ts`:
`` `${spec.path}:${spec.method}:${spec.summary || ''}` ``. -/
def getSpecKey (spec : ApiSpec) : String :=
  jsShow spec.path ++ ":" ++ jsShow spec.method ++ ":" ++ spec.summary.getD ""

/-- A `specCache` entry: the cached `ApiSpec` object, together with its
position in `apiSpecs` when the cached object is an element of that array.
JS stores the object reference; `apiSpecs.indexOf(existing)` recovers exactly
this position (`-1`, i.e. `none`, when the object is not in the array, as for
entries seeded by `loadSpecsFromFile`). -/
abbrev CacheEntry : Type := Option Nat × ApiSpec

/-- The accumulator's state: the `apiSpecs` array and the `specCache` map
(association list in `Map` insertion order). -/
structure AccState : Type where
  apiSpecs : List ApiSpec
  specCache : List (String × CacheEntry)

def AccState.empty : AccState := ⟨[], []⟩

/-- `Map.get`. -/
def mapGet {α : Type} (m : List (String × α)) (k : String) : Option α :=
  (m.find? (fun e => e.1 == k)).map (fun e => e.2)

/-- `Map.set`: replace in place if the key exists, else append. -/
def mapSet {α : Type} (m : List (String × α)) (k : String) (v : α) :
    List (String × α) :=
  match m with
  | [] => [(k, v)]
  | e :: rest => if e.1 == k then (k, v) :: rest else e :: mapSet rest k v

/-- `addApiSpec` of `src/utils/index.ts`.  `strLen` is the host
`JSON.stringify(·).length` function, passed explicitly.  On a cache hit the
stored spec is replaced iff the new serialization is strictly longer; the
in-array copy is updated only when the cached object is actually an element
of `apiSpecs` (`indexOf !== -1`). -/
def addApiSpec (strLen : ApiSpec → Nat) (spec : ApiSpec) (st : AccState) :
    AccState :=
  let key := getSpecKey spec
  match mapGet st.specCache key with
  | some (idx, existing) =>
      if strLen spec > strLen existing then
        { apiSpecs :=
            match idx with
            | some i => st.apiSpecs.set i spec
            | none => st.apiSpecs,
          specCache := mapSet st.specCache key (idx, spec) }
      else st
  | none =>
      { apiSpecs := st.apiSpecs ++ [spec],
        specCache := mapSet st.specCache key (some st.apiSpecs.length, spec) }

/-! ## String format detection (`generateSchemaFromResponse`, string case) -/

/-- JS regex `\s` for the characters relevant here (ASCII whitespace). -/
def isSpaceJS (c : Char) : Bool :=
  c == ' ' || c == '\t' || c == '\n' || c == '\r' || c == '\x0b' || c == '\x0c'

/-- `/^[^\s@]+@[^\s@]+\.[^\s@]+$/`: local part, `@`, then a domain that
contains an internal dot; no whitespace or further `@` anywhere. -/
def emailTest (s : String) : Bool :=
  let l := s.toList
  let a := l.takeWhile (fun c => !isSpaceJS c && c != '@')
  match l.drop a.length with
  | '@' :: rest =>
      !a.isEmpty && rest.all (fun c => !isSpaceJS c && c != '@') &&
        ((rest.drop 1).dropLast.contains '.')
  | _ => false

def isDigitC (c : Char) : Bool := '0' ≤ c && c ≤ '9'

def isHexC (c : Char) : Bool :=
  isDigitC c || ('a' ≤ c && c ≤ 'f') || ('A' ≤ c && c ≤ 'F')

/-- Consume exactly `n` characters satisfying `p`, or fail. -/
def chunk (p : Char → Bool) : Nat → List Char → Option (List Char)
  | 0, l => some l
  | n + 1, c :: l => if p c then chunk p n l else none
  | _ + 1, [] => none

/-- Consume one literal character. -/
def lit (c : Char) : List Char → Option (List Char)
  | d :: l => if d == c then some l else none
  | [] => none

/-- `/^[0-9a-f]{8}-[0-9a-f]{4}-[1-5][0-9a-f]{3}-[89ab][0-9a-f]{3}-[0-9a-f]{12}$/i`. -/
def uuidTest (s : String) : Bool :=
  let m := do
    let l ← chunk isHexC 8 s.toList
    let l ← lit '-' l
    let l ← chunk isHexC 4 l
    let l ← lit '-' l
    let l ← chunk (fun c => '1' ≤ c && c ≤ '5') 1 l
    let l ← chunk isHexC 3 l
    let l ← lit '-' l
    let l ← chunk (fun c => c == '8' || c == '9' || c == 'a' || c == 'b'
                         || c == 'A' || c == 'B') 1 l
    let l ← chunk isHexC 3 l
    let l ← lit '-' l
    chunk isHexC 12 l
  m == some []

/-- `/^\d{4}-\d{2}-\d{2}$/`. -/
def dateRe (s : String) : Bool :=
  (do
    let l ← chunk isDigitC 4 s.toList
    let l ← lit '-' l
    let l ← chunk isDigitC 2 l
    let l ← lit '-' l
    chunk isDigitC 2 l) == some []

/-- `/^\d{4}-\d{2}-\d{2}T\d{2}:\d{2}:\d{2}/` (prefix match, rest free). -/
def dateTimeRe (s : String) : Bool :=
  (do
    let l ← chunk isDigitC 4 s.toList
    let l ← lit '-' l
    let l ← chunk isDigitC 2 l
    let l ← lit '-' l
    let l ← chunk isDigitC 2 l
    let l ← lit 'T' l
    let l ← chunk isDigitC 2 l
    let l ← lit ':' l
    let l ← chunk isDigitC 2 l
    let l ← lit ':' l
    chunk isDigitC 2 l).isSome

/-- Remainders after matching one IPv4 octet
`(25[0-5]|2[0-4][0-9]|[01]?[0-9][0-9]?)`, in regex backtracking order. -/
def octetAlts (l : List Char) : List (List Char) :=
  let alt1 := match l with
    | '2' :: '5' :: c :: r => if '0' ≤ c && c ≤ '5' then [r] else []
    | _ => []
  let alt2 := match l with
    | '2' :: c :: d :: r =>
        if ('0' ≤ c && c ≤ '4') && isDigitC d then [r] else []
    | _ => []
  let alt3 := match l with
    | a :: b :: c :: r =>
        if (a == '0' || a == '1') && isDigitC b && isDigitC c then [r] else []
    | _ => []
  let alt4 := match l with
    | a :: b :: r => if (a == '0' || a == '1') && isDigitC b then [r] else []
    | _ => []
  let alt5 := match l with
    | a :: b :: r => if isDigitC a && isDigitC b then [r] else []
    | _ => []
  let alt6 := match l with
    | a :: r => if isDigitC a then [r] else []
    | _ => []
  alt1 ++ alt2 ++ alt3 ++ alt4 ++ alt5 ++ alt6

/-- `/^(?:octet\.){3}octet$/` with backtracking over the octet alternatives. -/
def ipv4Go : Nat → List Char → Bool
  | 0, l => (octetAlts l).any (fun r => r.isEmpty)
  | n + 1, l => (octetAlts l).any (fun r =>
      match r with
      | '.' :: r' => ipv4Go n r'
      | _ => false)

def ipv4Test (s : String) : Bool := ipv4Go 3 s.toList

/-- Consume `[0-9a-fA-F]{1,4}` maximally (the following char is never hex). -/
def hexChunk (l : List Char) : Option (List Char) :=
  let h := l.takeWhile isHexC
  if 1 ≤ h.length && h.length ≤ 4 then some (l.drop h.length) else none

def ipv6Full : Nat → List Char → Bool
  | 0, l => hexChunk l == some []
  | n + 1, l =>
      match hexChunk l with
      | some (':' :: r) => ipv6Full n r
      | _ => false

/-- `/^(([0-9a-fA-F]{1,4}:){7}[0-9a-fA-F]{1,4}|::1|::)$/`. -/
def ipv6Test (s : String) : Bool :=
  ipv6Full 7 s.toList || s == "::1" || s == "::"

/-- Host-environment functions used by the engine but external to the
repository: `!isNaN(Date.parse(s))` and whether `new URL(s)` succeeds. -/
structure JsEnv : Type where
  dateParseOk : String → Bool
  urlOk : String → Bool

/-- The string case of `generateSchemaFromResponse`: format detection in
source order — email, UUID, then (under the `Date.parse` guard) date and
date-time, then URL, IPv4, IPv6, else plain string; the original string is
always attached as `example`. -/
def stringSchema (env : JsEnv) (s : String) : Schema :=
  if emailTest s then
    mkS (some "string") (some "email") none none none none (some (.jv (.vStr s)))
  else if uuidTest s then
    mkS (some "string") (some "uuid") none none none none (some (.jv (.vStr s)))
  else if env.dateParseOk s && dateRe s then
    mkS (some "string") (some "date") none none none none (some (.jv (.vStr s)))
  else if env.dateParseOk s && dateTimeRe s then
    mkS (some "string") (some "date-time") none none none none (some (.jv (.vStr s)))
  else if env.urlOk s then
    mkS (some "string") (some "uri") none none none none (some (.jv (.vStr s)))
  else if ipv4Test s then
    mkS (some "string") (some "ipv4") none none none none (some (.jv (.vStr s)))
  else if ipv6Test s then
    mkS (some "string") (some "ipv6") none none none none (some (.jv (.vStr s)))
  else
    mkS (some "string") none none none none none (some (.jv (.vStr s)))

/-! ## Runtime schema inference (`generateSchemaFromResponse`) -/

/-- The module-level `schemaCache` `WeakMap`, keyed by object identity. -/
abbrev SchemaCache : Type := List (Nat × Schema)

def SchemaCache.get (c : SchemaCache) (a : Nat) : Option Schema :=
  (c.find? (fun e => e.1 == a)).map (fun e => e.2)

def SchemaCache.set (c : SchemaCache) (a : Nat) (s : Schema) : SchemaCache :=
  match c with
  | [] => [(a, s)]
  | e :: rest => if e.1 == a then (a, s) :: rest else e :: SchemaCache.set rest a s

/-- `WeakSet.has(value)`: `false` on primitives, reference lookup on objects. -/
def valInVis (vis : List Nat) : JSVal → Bool
  | .vRef a => vis.contains a
  | _ => false

def circularArr : Schema :=
  mkS (some "array") none (some "Circular reference detected") none none none none

def circularObj : Schema :=
  mkS (some "object") none (some "Circular reference detected") none none none none

def maxDepthSchema : Schema :=
  mkS (some "object") none (some "Maximum depth reached") none none none none

def procFailed : Schema :=
  mkS (some "string") none (some "Processing failed") none none none none

/-- State threaded through the object-branch key loop:
`(properties, required, safeExample, visited, schemaCache)`. -/
abbrev LoopSt : Type :=
  List (String × Schema) × List String × List (String × JSVal) × List Nat ×
    SchemaCache

/-- One iteration of the object-branch key loop of
`generateSchemaFromResponse` (the body of the `for` over the first 10 keys),
parameterized by the recursive inference call `rec`: a throwing read is
caught and stubbed with `procFailed`; a propagating inference failure is
likewise caught and stubbed; otherwise the key's schema is recorded, the key
becomes `required` iff its value is neither `null` nor `undefined`, and it
additionally enters the safe example iff the value is not in the visited set
after the recursive call. -/
def objStep
    (rec : JSVal → List Nat → SchemaCache →
      Except Unit Schema × List Nat × SchemaCache)
    (st : LoopSt) (kp : String × JSProp) : LoopSt :=
  let (props, req, ex, visA, cA) := st
  match kp.2 with
  | .throwing => (props ++ [(kp.1, procFailed)], req, ex, visA, cA)
  | .val value =>
    match rec value visA cA with
    | (.error _, visB, cB) =>
        (props ++ [(kp.1, procFailed)], req, ex, visB, cB)
    | (.ok s, visB, cB) =>
        if value ≠ JSVal.vNull ∧ value ≠ JSVal.vUndefined then
          (props ++ [(kp.1, s)], req ++ [kp.1],
            if valInVis visB value then ex
            else ex ++ [(kp.1, value)], visB, cB)
        else (props ++ [(kp.1, s)], req, ex, visB, cB)

/-- `generateSchemaFromResponse`, with the `depth` guard folded into a fuel
argument (`fuel = 11 - depth`, so `fuel = 0` ⟺ `depth > 10`).  Returns the
schema (or a propagating exception), the visited `WeakSet` and the
`schemaCache` as left by the call.  The array branch is unguarded in the
source, so a throwing element-0 access propagates (`Except.error`) and skips
the `visited.delete`; per-key failures in the object branch are caught and
stubbed with `procFailed`. -/
def genSchemaGo (env : JsEnv) (heap : Heap) :
    Nat → JSVal → List Nat → SchemaCache →
    Except Unit Schema × List Nat × SchemaCache
  | 0, _, vis, cache => (.ok maxDepthSchema, vis, cache)
  | fuel + 1, v, vis, cache =>
    match v with
    | .vNull => (.ok (mkS (some "null") none none none none none none), vis, cache)
    | .vUndefined => (.ok emptySchema, vis, cache)
    | .vStr s => (.ok (stringSchema env s), vis, cache)
    | .vNum q =>
        (.ok (mkS (some (if q.den = 1 then "integer" else "number")) none none
          none none none (some (.jv (.vNum q)))), vis, cache)
    | .vBool b =>
        (.ok (mkS (some "boolean") none none none none none
          (some (.jv (.vBool b)))), vis, cache)
    | .vRef a =>
      match SchemaCache.get cache a with
      | some s => (.ok s, vis, cache)
      | none =>
        match heap.get a with
        | .arr elems =>
          if vis.contains a then (.ok circularArr, vis, cache)
          else
            let vis1 := a :: vis
            match elems with
            | [] =>
                let schema := mkS (some "array") none none none
                  (some emptySchema) none (some (.jarr []))
                (.ok schema, vis1.erase a, SchemaCache.set cache a schema)
            | .throwing :: _ => (.error (), vis1, cache)
            | .val e0 :: _ =>
                match genSchemaGo env heap fuel e0 vis1 cache with
                | (.error u, vis2, c2) => (.error u, vis2, c2)
                | (.ok items, vis2, c2) =>
                    let schema := mkS (some "array") none none none
                      (some items) none (some (.jarr [e0]))
                    (.ok schema, vis2.erase a, SchemaCache.set c2 a schema)
        | .obj fields =>
          if vis.contains a then (.ok circularObj, vis, cache)
          else
            let vis1 := a :: vis
            let st := (fields.take 10).foldl
              (objStep (genSchemaGo env heap fuel))
              (([], [], [], vis1, cache) : LoopSt)
            let schema := mkS (some "object") none none (some st.1) none
              (if st.2.1.length > 0 then some st.2.1 else none)
              (some (.jobj st.2.2.1))
            (.ok schema, st.2.2.2.1.erase a, SchemaCache.set st.2.2.2.2 a schema)

/-- `generateSchemaFromResponse(data, visited, depth)`: entry point with the
source's `depth` parameter (`depth > 10` returns the max-depth stub). -/
def generateSchemaFromResponse (env : JsEnv) (heap : Heap) (data : JSVal)
    (vis : List Nat) (depth : Nat) (cache : SchemaCache) :
    Except Unit Schema × List Nat × SchemaCache :=
  genSchemaGo env heap (11 - depth) data vis cache

/-! ## Declaration DSL (`path`, `operation`, `response`, …) -/

/-- The mutable `currentApiSpec : Partial<ApiSpec>` cursor.  `parameters`
holds a *reference* into a parameter-array heap and `responses` a
*reference* into a responses-map heap (JS arrays and objects are shared by
reference across the shallow `{...spread}` snapshots, and `parameter(...)`
and `response(...)` mutate them in place); all other fields are carried by
value. -/
structure Cursor : Type where
  path : Option String := none
  method : Option String := none
  summary : Option String := none
  description : Option String := none
  tags : Option (List String) := none
  parameters : Option Nat := none
  requestBody : Option RequestBody := none
  responses : Option Nat := none
  security : Option (List SecurityRequirement) := none

/-- Declaration-phase state: the cursor, the parameter-array heap, the
responses-map heap, and the accumulator. -/
structure DslState : Type where
  cursor : Cursor
  pheap : List (List Parameter)
  rheap : List (List (String × Response))
  acc : AccState

/-- A well-formed state: the cursor's responses reference, when present,
points into the responses heap (real JS references always do). -/
def respOk (s : DslState) : Bool :=
  match s.cursor.responses with
  | some r => r < s.rheap.length
  | none => true

/-- The cursor with its `parameters` and `responses` references
dereferenced: the observable value of `currentApiSpec`. -/
structure CursorView : Type where
  path : Option String
  method : Option String
  summary : Option String
  description : Option String
  tags : Option (List String)
  parameters : Option (List Parameter)
  requestBody : Option RequestBody
  responses : Option (List (String × Response))
  security : Option (List SecurityRequirement)

def cursorView (s : DslState) : CursorView where
  path := s.cursor.path
  method := s.cursor.method
  summary := s.cursor.summary
  description := s.cursor.description
  tags := s.cursor.tags
  parameters := s.cursor.parameters.map (fun r => s.pheap.getD r [])
  requestBody := s.cursor.requestBody
  responses := s.cursor.responses.map (fun r => s.rheap.getD r [])
  security := s.cursor.security

/-- `path(pathUrl, callback)`: snapshot the cursor (`{...currentApiSpec}`),
set `path`, run the body (the `describe` callback runs synchronously), then
restore the snapshot. -/
def pathScope (pathUrl : String) (body : DslState → DslState) (s : DslState) :
    DslState :=
  let originalSpec := s.cursor
  let s1 := { s with cursor := { s.cursor with path := some pathUrl } }
  let s2 := body s1
  { s2 with cursor := originalSpec }

/-- `operation(method, summary, callback)`: snapshot the cursor, set
`method` (lowercased) and `summary`, allocate a *fresh* empty `responses`
map (the `responses: {}` of the spread), run the body, then restore the
snapshot. -/
def operationScope (method summary : String) (body : DslState → DslState)
    (s : DslState) : DslState :=
  let originalSpec := s.cursor
  let s1 := { s with
    cursor := { s.cursor with
      method := some method.toLower
      summary := some summary
      responses := some s.rheap.length }
    rheap := s.rheap ++ [[]] }
  let s2 := body s1
  { s2 with cursor := originalSpec }

/-- `tags(...tagNames)`. -/
def tagsOp (names : List String) (s : DslState) : DslState :=
  { s with cursor := { s.cursor with tags := some names } }

/-- `description(desc)`. -/
def descriptionOp (d : String) (s : DslState) : DslState :=
  { s with cursor := { s.cursor with description := some d } }

/-- `parameter(param)`: create the `parameters` array if missing, then
`push` onto it *in place* (the array is shared with any cursor snapshot that
captured the same reference). -/
def parameterOp (p : Parameter) (s : DslState) : DslState :=
  match s.cursor.parameters with
  | none =>
      { s with
        cursor := { s.cursor with parameters := some s.pheap.length }
        pheap := s.pheap ++ [[p]] }
  | some r => { s with pheap := s.pheap.set r (s.pheap.getD r [] ++ [p]) }

/-- `requestBody(body)`. -/
def requestBodyOp (b : RequestBody) (s : DslState) : DslState :=
  { s with cursor := { s.cursor with requestBody := some b } }

/-- The `options` object of `response(...)`. -/
structure RespOpts : Type where
  content : Option (List (String × MediaEntry)) := none
  headers : Option (List (String × HeaderObj)) := none
  captureResponse : Option Bool := none

/-- The third argument of `response(...)`: an options object or a bare test
callback.  A callback is modelled by the value its `await` settles to. -/
inductive RespArg : Type where
  | opts : RespOpts → RespArg
  | cb : JSVal → RespArg

/-- Overload resolution of `response(...)` (source lines: the
`typeof options` dispatch).  A bare callback forces
`{captureResponse: true}`; an options object together with a callback gets
`captureResponse` forced to `true` whenever it is not already truthy; with
no third argument the fourth is ignored entirely. -/
def resolveRespArgs : Option RespArg → Option JSVal →
    Option RespOpts × Option JSVal
  | some (.cb c), _ => (some { captureResponse := some true }, some c)
  | some (.opts o), cb =>
      if cb.isSome ∧ ¬(o.captureResponse.getD false) then
        (some { o with captureResponse := some true }, cb)
      else (some o, cb)
  | none, _ => (none, none)

/-- JS truthiness of a possibly-absent string (`''` and `undefined` are
falsy). -/
def truthyS : Option String → Bool
  | none => false
  | some s => s != ""

/-- The duplicate-status-key search: candidates `"<code>-1"`, `"<code>-2"`, …
until one is free.  `fuel = |responses| + 1` always suffices (the candidates
are pairwise distinct, so one of the first `|responses| + 1` is unused); the
fuel-exhausted fallback is unreachable. -/
def findRespKeyAux (resp : List (String × Response)) (code : String) :
    Nat → Nat → String
  | counter, 0 => code ++ "-" ++ toString counter
  | counter, fuel + 1 =>
      let k := code ++ "-" ++ toString counter
      if (mapGet resp k).isSome then findRespKeyAux resp code (counter + 1) fuel
      else k

/-- The response key chosen for `statusCode`: the bare code if unused, else
the first free suffixed key. -/
def findRespKey (resp : List (String × Response)) (statusCode : Nat) : String :=
  let base := toString statusCode
  if (mapGet resp base).isSome then findRespKeyAux resp base 1 (resp.length + 1)
  else base

/-- What the declaration registers with `it(...)` for later execution. -/
structure PendingTest : Type where
  statusCode : Nat
  desc : String
  responseKey : String
  responseOptions : Option RespOpts
  testCallback : Option JSVal
  specSnapshot : ApiSpec

/-- `if (!currentApiSpec.responses) { currentApiSpec.responses = {} }`:
allocate a fresh empty responses map on the cursor when it holds none
(performed at the top of `response(...)` and again inside the `it` body). -/
def ensureResponses (s : DslState) : DslState :=
  match s.cursor.responses with
  | some _ => s
  | none =>
      { s with
        cursor := { s.cursor with responses := some s.rheap.length }
        rheap := s.rheap ++ [[]] }

/-- Phase 1 of `response(statusCode, desc, options?, callback?)`: ensure the
cursor owns a responses map, resolve the overload, build the `Response`,
store it under a fresh (possibly suffixed) key by *mutating the shared
responses map in place*, snapshot the cursor (the snapshot's `responses` is
a value copy `{...currentApiSpec.responses}` taken after the store), submit
the snapshot iff both `path` and `method` are truthy, and register the test
body.  `strLen` is the host `JSON.stringify(·).length`. -/
def responseDecl (strLen : ApiSpec → Nat) (statusCode : Nat) (desc : String)
    (arg : Option RespArg) (cb : Option JSVal) (s : DslState) :
    DslState × PendingTest :=
  let s0 := ensureResponses s
  let r := s0.cursor.responses.getD 0
  let resp0 := s0.rheap.getD r []
  let (ro, tcb) := resolveRespArgs arg cb
  let responseObj : Response :=
    { description := desc
      content := ro.bind (fun o => o.content)
      headers := ro.bind (fun o => o.headers) }
  let responseKey := findRespKey resp0 statusCode
  let resp1 := mapSet resp0 responseKey responseObj
  let s1 := { s0 with rheap := s0.rheap.set r resp1 }
  let specSnapshot : ApiSpec :=
    { path := s1.cursor.path
      method := s1.cursor.method
      summary := s1.cursor.summary
      description := s1.cursor.description
      tags := s1.cursor.tags
      parameters := s1.cursor.parameters.map (fun q => s1.pheap.getD q [])
      requestBody := s1.cursor.requestBody
      responses := resp1
      security := s1.cursor.security }
  let s2 :=
    if truthyS specSnapshot.path ∧ truthyS specSnapshot.method then
      { s1 with acc := addApiSpec strLen specSnapshot s1.acc }
    else s1
  (s2, ⟨statusCode, desc, responseKey, ro, tcb, specSnapshot⟩)

/-! ## Response capture (phase 2: the registered `it` body) -/

/-- JS truthiness (`NaN` is outside the model). -/
def jsTruthy : JSVal → Bool
  | .vNull => false
  | .vUndefined => false
  | .vBool b => b
  | .vNum q => q != 0
  | .vStr s => s != ""
  | .vRef _ => true

/-- JS `a || b`. -/
def jsOr (a b : JSVal) : JSVal := if jsTruthy a then a else b

/-- Property read `heap[a][k]`; a `throwing` accessor raises.  Named
properties of arrays (beyond the modelled element slots) read as
`undefined`. -/
def getProp (heap : Heap) (a : Nat) (k : String) : Except Unit JSVal :=
  match heap.get a with
  | .obj fields =>
      match mapGet fields k with
      | some (.val v) => .ok v
      | some .throwing => .error ()
      | none => .ok .vUndefined
  | .arr _ => .ok .vUndefined

/-- `Object.keys`/value pairs of a heap object (array indices stringified). -/
def objEntries (h : HObj) : List (String × JSProp) :=
  match h with
  | .obj fields => fields
  | .arr elems => elems.enum.map (fun e => (toString e.1, e.2))

/-- `DANGEROUS_KEYS` of the source. -/
def dangerousKeys : List String :=
  ["req", "request", "socket", "connection", "agent", "xhr", "_httpMessage",
   "res", "response", "client", "parser"]

/-- `extractSafeHeaders(headers)`: keep only string- or number-valued
entries.  The per-key read is unguarded in the source, so a throwing
accessor propagates. -/
def extractSafeHeaders (heap : Heap) (headers : JSVal) :
    Except Unit (List (String × JSProp)) :=
  match headers with
  | .vRef a =>
      (objEntries (heap.get a)).foldlM
        (fun acc kp =>
          match kp.2 with
          | .throwing => Except.error ()
          | .val v =>
              match v with
              | .vStr _ => Except.ok (acc ++ [(kp.1, JSProp.val v)])
              | .vNum _ => Except.ok (acc ++ [(kp.1, JSProp.val v)])
              | _ => Except.ok acc)
        []
  | _ => .ok []

/-- `removeBrowserObjects(obj, visited)`: strip dangerous and
underscore-prefixed keys recursively, short-circuiting cycles to `undefined`;
per-key reads and recursions are guarded by `try`/`catch` (the key is
skipped on a throw), but array elements are read by `map` unguarded.
Freshly-built copies are allocated on the heap; the returned heap extends the
input one.  `fuel` bounds the recursion depth (the visited set makes real
recursion depth at most the number of heap objects, so any
`fuel ≥ heap.length + 1` is exact). -/
def removeBrowserObjects (fuel : Nat) (heap : Heap) (v : JSVal)
    (vis : List Nat) : Except Unit (Heap × JSVal) :=
  match fuel with
  | 0 => .ok (heap, v)
  | fuel + 1 =>
    match v with
    | .vNull => .ok (heap, v)
    | .vUndefined => .ok (heap, v)
    | .vBool _ => .ok (heap, v)
    | .vNum _ => .ok (heap, v)
    | .vStr _ => .ok (heap, v)
    | .vRef a =>
      if vis.contains a then .ok (heap, .vUndefined)
      else
        let vis1 := a :: vis
        match heap.get a with
        | .arr elems =>
            match elems.foldlM
              (fun (acc : Heap × List JSProp) p =>
                match p with
                | .throwing => Except.error ()
                | .val e =>
                    match removeBrowserObjects fuel acc.1 e vis1 with
                    | .error u => Except.error u
                    | .ok (h2, e2) => Except.ok (h2, acc.2 ++ [JSProp.val e2]))
              ((heap, []) : Heap × List JSProp) with
            | .error u => .error u
            | .ok (h2, elems2) => .ok (h2 ++ [.arr elems2], .vRef h2.length)
        | .obj fields =>
            let st := fields.foldl
              (fun (acc : Heap × List (String × JSProp)) kp =>
                if dangerousKeys.contains kp.1 || kp.1.startsWith "_" then acc
                else
                  match kp.2 with
                  | .throwing => acc
                  | .val value =>
                      if value = JSVal.vRef a then acc
                      else
                        match removeBrowserObjects fuel acc.1 value vis1 with
                        | .error _ => acc
                        | .ok (h2, v2) => (h2, acc.2 ++ [(kp.1, .val v2)]))
              ((heap, []) : Heap × List (String × JSProp))
            .ok (st.1 ++ [.obj st.2], .vRef st.1.length)

/-- `extractSafeResponse(response)`: prefer `body`, then `data`; else, when a
`status`/`statusCode` is present, synthesize a `{status, data, headers}`
wrapper (allocated fresh); otherwise fall back to `removeBrowserObjects`.
Property reads here are unguarded, so a throwing accessor propagates. -/
def extractSafeResponse (fuel : Nat) (heap : Heap) (response : JSVal) :
    Except Unit (Heap × JSVal) :=
  match response with
  | .vRef a => do
      let body ← getProp heap a "body"
      if body ≠ JSVal.vUndefined then return (heap, body)
      else
        let data ← getProp heap a "data"
        if data ≠ JSVal.vUndefined then return (heap, data)
        else
          let status ← getProp heap a "status"
          let cond ←
            if status ≠ JSVal.vUndefined then pure true
            else do
              let sc ← getProp heap a "statusCode"
              pure (sc != JSVal.vUndefined)
          if cond then do
            let statusV ←
              if jsTruthy status then pure status
              else getProp heap a "statusCode"
            let dataV := jsOr body data
            let hdrs ← getProp heap a "headers"
            let hdrFields ← extractSafeHeaders heap hdrs
            let h1 := heap ++ [HObj.obj hdrFields]
            let wrapper := HObj.obj
              [("status", .val statusV), ("data", .val dataV),
               ("headers", .val (.vRef heap.length))]
            return (h1 ++ [wrapper], .vRef h1.length)
          else removeBrowserObjects fuel heap response []
  | _ => removeBrowserObjects fuel heap response []

/-- The capture guard of the `it` body:
`responseOptions?.captureResponse && result && typeof result === 'object'`. -/
def captureRuns (ro : Option RespOpts) (result : JSVal) : Bool :=
  (match ro with
   | some o => o.captureResponse.getD false
   | none => false) &&
  jsTruthy result &&
  (match result with | .vRef _ => true | _ => false)

/-- Phase 2: the registered `it` body at test-run time, acting on the
*run-time* DSL state `s` (scopes have typically been exited by now).  When
the capture guard holds, extract the safe payload, infer its schema, write
the rebuilt response with the captured `content` into the cursor's shared
responses map in place (allocating it first if absent), and resubmit the
enriched snapshot; an uncaught throw (unguarded extraction or the unguarded
array branch of inference) fails the test body and nothing is resubmitted. -/
def runTestPhase (env : JsEnv) (strLen : ApiSpec → Nat) (fuel : Nat)
    (pt : PendingTest) (s : DslState) (heap : Heap) (cache : SchemaCache) :
    Except Unit (DslState × Heap × SchemaCache) :=
  match pt.testCallback with
  | none => .ok (s, heap, cache)
  | some result =>
    if captureRuns pt.responseOptions result then
      match extractSafeResponse fuel heap result with
      | .error u => .error u
      | .ok (heap1, safeResult) =>
        match generateSchemaFromResponse env heap1 safeResult [] 0 cache with
        | (.error u, _, _) => .error u
        | (.ok capturedSchema, _, cache1) =>
          let capturedContent : List (String × MediaEntry) :=
            [("application/json",
              { schema := capturedSchema, exampleVal := some (.jv safeResult) })]
          let updatedResponse : Response :=
            { description := pt.desc
              content := some capturedContent
              headers := pt.responseOptions.bind (fun o => o.headers) }
          let s0 := ensureResponses s
          let r := s0.cursor.responses.getD 0
          let resp1 := mapSet (s0.rheap.getD r []) pt.responseKey updatedResponse
          let s1 := { s0 with rheap := s0.rheap.set r resp1 }
          let updatedSnapshot := { pt.specSnapshot with responses := resp1 }
          let s2 := { s1 with acc := addApiSpec strLen updatedSnapshot s1.acc }
          .ok (s2, heap1, cache1)
    else .ok (s, heap, cache)

/-! ## Document synthesis (`src/generator/openapi-generator.ts`) -/

/-- Generator configuration (the file-output path is external to the core). -/
structure GenConfig : Type where
  title : String
  version : String
  description : Option String := none
  servers : Option (List (String × Option String)) := none

/-- One synthesized operation object. -/
structure OAOperation : Type where
  summary : Option String
  description : Option String
  tags : Option (List String)
  parameters : Option (List Parameter)
  requestBody : Option RequestBody := none
  responses : List (String × Response)
  security : Option (List SecurityRequirement) := none

/-- The synthesized OpenAPI document (the parts the core computes). -/
structure OADocument : Type where
  openapi : String
  title : String
  version : String
  description : Option String
  servers : Option (List (String × Option String))
  paths : List (String × List (String × OAOperation))

/-- Generic JS-`Map` get over arbitrary keys. -/
def mapGetK {κ α : Type} [BEq κ] (m : List (κ × α)) (k : κ) : Option α :=
  (m.find? (fun e => e.1 == k)).map (fun e => e.2)

/-- Generic JS-`Map` set (replace in place, else append). -/
def mapSetK {κ α : Type} [BEq κ] (m : List (κ × α)) (k : κ) (v : α) :
    List (κ × α) :=
  match m with
  | [] => [(k, v)]
  | e :: rest => if e.1 == k then (k, v) :: rest else e :: mapSetK rest k v

/-- The single-pass grouping `Map<path, Map<method, spec>>` (later specs for
the same path+method overwrite earlier ones in place).  `Map` keys are the
raw `spec.path`/`spec.method` values, which may be `undefined`. -/
def pathGroups (specs : List ApiSpec) :
    List (Option String × List (Option String × ApiSpec)) :=
  specs.foldl
    (fun groups spec =>
      match mapGetK groups spec.path with
      | none => groups ++ [(spec.path, [(spec.method, spec)])]
      | some methods => mapSetK groups spec.path (mapSetK methods spec.method spec))
    []

/-- The display re-keying of one response key: `"<code>-<suffix>"` renders as
`"<code> (<suffix>)"`, anything without a dash is kept as is (split at the
*first* dash). -/
def renderRespKey (k : String) : String :=
  let l := k.toList
  let pre := l.takeWhile (fun c => c != '-')
  if pre.length = l.length then k
  else String.mk pre ++ " (" ++ String.mk (l.drop (pre.length + 1)) ++ ")"

/-- One operation's `responses` map in the document: display-rekeyed, or the
default `{"200": {description: "Success"}}` when empty. -/
def processResponses (resp : List (String × Response)) :
    List (String × Response) :=
  let processed := resp.foldl
    (fun acc kr => mapSet acc (renderRespKey kr.1) kr.2) []
  if processed.length > 0 then processed
  else [("200", { description := "Success" })]

/-- The operation object synthesized from one grouped spec (the body of the
`methods.forEach` loop). -/
def specToOp (spec : ApiSpec) : OAOperation where
  summary := spec.summary
  description := spec.description
  tags := spec.tags
  parameters := spec.parameters
  requestBody := spec.requestBody
  responses := processResponses spec.responses
  security := spec.security

/-- `OpenAPIGenerator.generateDocument()` (the pure computation; the
`documentCache` memoization returns a previously computed document unchanged
and the `writeDocument` file output is external). -/
def generateDocument (specs : List ApiSpec) (cfg : GenConfig) : OADocument where
  openapi := "3.0.3"
  title := cfg.title
  version := cfg.version
  description := cfg.description
  servers := cfg.servers
  paths :=
    (pathGroups specs).map (fun g =>
      (jsShow g.1, g.2.map (fun ms => (jsShow ms.1, specToOp ms.2))))

/-! ## Accessors, side conditions and concrete scenarios used by the
theorems -/

/-- The schema of an inference result, when it did not throw. -/
def resSchema (r : Except Unit Schema × List Nat × SchemaCache) :
    Option Schema := r.1.toOption

/-- The `required` list of an inference result (empty when absent). -/
def reqListOf (r : Except Unit Schema × List Nat × SchemaCache) :
    List String := ((resSchema r).bind Schema.required).getD []

/-- The keys of the inference result's safe `example` object. -/
def exKeysOf (r : Except Unit Schema × List Nat × SchemaCache) :
    List String :=
  match (resSchema r).bind Schema.exampleVal with
  | some (.jobj l) => l.map Prod.fst
  | _ => []

/-- The `properties` list of an inference result (empty when absent). -/
def propsOf (r : Except Unit Schema × List Nat × SchemaCache) :
    List (String × Schema) := ((resSchema r).bind Schema.properties).getD []

/-- A heap object with no throwing property reads. -/
def hobjSafe : HObj → Prop
  | .arr es => ∀ p ∈ es, p ≠ JSProp.throwing
  | .obj fs => ∀ kp ∈ fs, kp.2 ≠ JSProp.throwing

/-- A heap with no throwing property reads anywhere. -/
def heapSafe (heap : Heap) : Prop := ∀ h ∈ heap, hobjSafe h

/-- A heap in which no array's element 0 is a throwing accessor (the only
read the inference engine performs unguarded). -/
def arrHeadSafe (heap : Heap) : Prop :=
  ∀ h ∈ heap, match h with
    | .arr (p :: _) => p ≠ JSProp.throwing
    | _ => True

/-- A host environment on which `Date.parse` rejects and `new URL` throws for
every string (which is what real JS does on every concrete string these
theorems feed it). -/
def envFalse : JsEnv := ⟨fun _ => false, fun _ => false⟩

/-- A well-formed version-4 UUID string. -/
def uuidStr : String := "550e8400-e29b-41d4-a716-446655440000"

/-- The string-format pipeline exactly as the claim words it: email, then
date, then date-time, then URI, then IPv4, then IPv6, else plain string —
with no UUID step.  (Modelled from the claim's words, for comparison with
the source's `stringSchema`.) -/
def stringSchemaClaimed (env : JsEnv) (s : String) : Schema :=
  if emailTest s then
    mkS (some "string") (some "email") none none none none (some (.jv (.vStr s)))
  else if dateRe s then
    mkS (some "string") (some "date") none none none none (some (.jv (.vStr s)))
  else if dateTimeRe s then
    mkS (some "string") (some "date-time") none none none none (some (.jv (.vStr s)))
  else if env.urlOk s then
    mkS (some "string") (some "uri") none none none none (some (.jv (.vStr s)))
  else if ipv4Test s then
    mkS (some "string") (some "ipv4") none none none none (some (.jv (.vStr s)))
  else if ipv6Test s then
    mkS (some "string") (some "ipv6") none none none none (some (.jv (.vStr s)))
  else
    mkS (some "string") none none none none none (some (.jv (.vStr s)))

/-- Heap with a self-cycle: `x.self = x`. -/
def heapSelf : Heap := [.obj [("self", .val (.vRef 0))]]

/-- Heap whose single array throws on element access. -/
def heapThrowArr : Heap := [.arr [.throwing]]

/-- Heap for the C5 counterexample: object `{a: null, b: A}` where `A` is an
array whose element-0 access throws. -/
def heapC5 : Heap :=
  [.obj [("a", .val .vNull), ("b", .val (.vRef 1))], .arr [.throwing]]

/-- Heap with a single object whose property `bad` throws on read. -/
def heapThrowProp : Heap := [.obj [("bad", .throwing)]]

/-- An `n`-level chain of nested objects `{child: {child: …}}` ending in a
string leaf. -/
def deepNest (n : Nat) : Heap :=
  (List.range n).map (fun i =>
    .obj [("child", .val (if i + 1 < n then .vRef (i + 1) else .vStr "leaf"))])

/-- Claim C5 exactly as stated, at a top-level inference call on the object
at address `a`: every processed key is required iff its value is non-null
and non-undefined, and is in the example iff it did not trigger a cycle
(which, with an empty initial visited set, means a reference back to the
object itself). -/
def C5ClaimAt (env : JsEnv) (heap : Heap) (a : Nat) : Prop :=
  match heap.get a with
  | .obj fields =>
      ∀ k v, (k, JSProp.val v) ∈ fields.take 10 →
        ((k ∈ reqListOf (genSchemaGo env heap 11 (.vRef a) [] [])) ↔
          (v ≠ .vNull ∧ v ≠ .vUndefined)) ∧
        ((k ∈ exKeysOf (genSchemaGo env heap 11 (.vRef a) [] [])) ↔
          v ≠ .vRef a)
  | _ => True

/-- A simple host serialization-length function for witnesses (any
`strLen` works in the theorems; the response count stands in for
`JSON.stringify(·).length` there). -/
def wLen : ApiSpec → Nat := fun s => s.responses.length

/-- Scenario: a cursor inside `path('/users', …); get('List users', …)` —
the operation has allocated the (empty) responses map the cursor points
at. -/
def c3St0 : DslState :=
  ⟨{ path := some "/users", method := some "get", summary := some "List users",
     responses := some 0 }, [], [[]], AccState.empty⟩

def c3D1 : DslState × PendingTest := responseDecl wLen 200 "first" none none c3St0
def c3D2 : DslState × PendingTest := responseDecl wLen 200 "second" none none c3D1.1
def c3D3 : DslState × PendingTest := responseDecl wLen 200 "third" none none c3D2.1

/-- A query parameter used by the C7 scenario. -/
def pQ (n : String) : Parameter :=
  { name := n, inLocation := .query, schema := emptySchema }

/-- Scenario: a cursor that already owns a one-element parameters array. -/
def c7St : DslState :=
  ⟨{ parameters := some 0 }, [[pQ "p1"]], [], AccState.empty⟩

/-- Scenario: a cursor holding neither a parameters array nor a responses
map. -/
def c7Clean : DslState := ⟨{ path := some "/u" }, [], [], AccState.empty⟩

/-- The DSL state after a bare top-level `response(200, 'prior', …)`: the
cursor owns a responses map already holding the `200` entry. -/
def c7RespSt : DslState :=
  (responseDecl wLen 200 "prior" none none ⟨{}, [], [], AccState.empty⟩).1

/-- A scope body that declares `response(201, 'leak', …)` — writing into
whatever responses map the cursor shares at that point. -/
def c7LeakBody : DslState → DslState :=
  fun st => (responseDecl wLen 201 "leak" none none st).1

/-- Scenario for C10: a callback result with a `body` field. -/
def c10Heap : Heap := [.obj [("body", .val (.vStr "payload"))]]

def c10St : DslState :=
  ⟨{ path := some "/u", method := some "get", summary := some "s",
     responses := some 0 }, [], [[]], AccState.empty⟩

/-- Declaring `response(200, 'ok', {captureResponse: false}, callback)`. -/
def c10Decl : DslState × PendingTest :=
  responseDecl wLen 200 "ok" (some (.opts { captureResponse := some false }))
    (some (.vRef 0)) c10St

/-- Running the registered test body afterwards. -/
def c10Run : Except Unit (DslState × Heap × SchemaCache) :=
  runTestPhase envFalse wLen 5 c10Decl.2 c10Decl.1 c10Heap []

/-- A sparse and a richer spec sharing one identity key (for C1). -/
def sparseSpec : ApiSpec :=
  { path := some "/a", method := some "get", summary := some "s",
    responses := [] }

def richSpec : ApiSpec :=
  { path := some "/a", method := some "get", summary := some "s",
    responses := [("200", { description := "ok" })] }

/-- A spec with no declared responses (for C8). -/
def noRespSpec : ApiSpec :=
  { path := some "/a", method := some "get", responses := [] }

/-- A cursor with a method but no path (for C9), owning a valid (empty)
responses map. -/
def c9St : DslState :=
  ⟨{ method := some "get", responses := some 0 }, [], [[]], AccState.empty⟩

/-- A host environment whose `Date.parse` accepts every string (real JS
accepts the ISO strings the witnesses use). -/
def envTrue : JsEnv := ⟨fun _ => true, fun _ => false⟩

/-- The `required` predicate of the amended C5: a declared data value that
is neither `null` nor `undefined`. -/
def reqPred (kp : String × JSProp) : Bool :=
  match kp.2 with
  | JSProp.val v => decide (v ≠ JSVal.vNull ∧ v ≠ JSVal.vUndefined)
  | JSProp.throwing => false

/-- The safe-example selector of the amended C5: additionally the value must
not be in the visited set at the check. -/
def exSel (vis : List Nat) (kp : String × JSProp) : Option (String × JSVal) :=
  match kp.2 with
  | JSProp.val v =>
      if (v ≠ JSVal.vNull ∧ v ≠ JSVal.vUndefined) ∧ valInVis vis v = false
      then some (kp.1, v) else none
  | JSProp.throwing => none

/-- Descend `n` `"child"` property links into a schema. -/
def descend : Nat → Option Schema → Option Schema
  | 0, s => s
  | n + 1, s =>
      descend n (s.bind (fun t => mapGet (t.properties.getD []) "child"))


/-! ## Helper lemmas -/

theorem mapGet_mapSet_self {α : Type} (m : List (String × α)) (k : String)
    (v : α) : mapGet (mapSet m k v) k = some v := by
  induction m with
  | nil => simp [mapSet, mapGet]
  | cons e rest ih =>
      by_cases h : e.1 == k
      · simp [mapSet, h, mapGet]
      · simp only [mapSet, h, if_false, Bool.false_eq_true]
        simpa [mapGet, List.find?, h] using ih

theorem set_append_length {α : Type} (l : List α) (a b : α) :
    (l ++ [a]).set l.length b = l ++ [b] := by
  induction l with
  | nil => rfl
  | cons x xs ih => simp [List.set, ih]

theorem getD_append_length {α : Type} (l : List α) (x : α) (d : α) :
    (l ++ [x]).getD l.length d = x := by
  induction l with
  | nil => rfl
  | cons a as ih => simpa [List.getD] using ih

theorem getD_set_lt {α : Type} (l : List α) (n : Nat) (x d : α)
    (h : n < l.length) : (l.set n x).getD n d = x := by
  induction l generalizing n with
  | nil => simp at h
  | cons a as ih =>
      cases n with
      | zero => rfl
      | succ m => simpa [List.getD] using ih m (by simpa using h)

theorem mapGet_append_not_mem {α : Type} (l m : List (String × α)) (k : String)
    (h : k ∉ l.map Prod.fst) : mapGet (l ++ m) k = mapGet m k := by
  induction l with
  | nil => rfl
  | cons e rest ih =>
      have hek : (e.1 == k) = false := by
        simp only [beq_eq_false_iff_ne, ne_eq]
        intro he
        exact h (by simp [← he])
      simp only [List.cons_append, mapGet, List.find?_cons, hek]
      exact ih (fun hm => h (List.mem_cons_of_mem _ hm))

theorem takeWhile_append_stop {p : Char → Bool} (l₁ l₂ : List Char)
    (h : ∀ c ∈ l₁, p c = true) (c0 : Char) (hc : p c0 = false) :
    (l₁ ++ c0 :: l₂).takeWhile p = l₁ := by
  induction l₁ with
  | nil => simp [List.takeWhile, hc]
  | cons x xs ih =>
      have hx : p x = true := h x (by simp)
      simp only [List.cons_append, List.takeWhile_cons, hx, if_true]
      rw [ih (fun c hcx => h c (by simp [hcx]))]

theorem drop_append_cons {α : Type} (l₁ l₂ : List α) (c0 : α) :
    (l₁ ++ c0 :: l₂).drop (l₁.length + 1) = l₂ := by
  induction l₁ with
  | nil => rfl
  | cons x xs ih => simpa using ih

theorem mapSet_length_mono {α : Type} (m : List (String × α)) (k : String)
    (v : α) : m.length ≤ (mapSet m k v).length := by
  induction m with
  | nil => simp [mapSet]
  | cons e rest ih =>
      by_cases h : e.1 == k <;> simp [mapSet, h] <;> omega

theorem processResponses_ne_nil (resp : List (String × Response)) :
    processResponses resp ≠ [] := by
  by_cases h :
    (resp.foldl (fun acc kr => mapSet acc (renderRespKey kr.1) kr.2) []).length > 0
  · simp only [processResponses, h, if_true]
    exact List.ne_nil_of_length_pos h
  · simp [processResponses, h]

theorem mem_mapSetK_self {κ α : Type} [BEq κ] [LawfulBEq κ]
    (m : List (κ × α)) (k : κ) (v : α) : (k, v) ∈ mapSetK m k v := by
  induction m with
  | nil => simp [mapSetK]
  | cons e rest ih =>
      by_cases h : e.1 == k <;> simp [mapSetK, h, ih]

theorem mem_mapSetK_ne {κ α : Type} [BEq κ] [LawfulBEq κ]
    {m : List (κ × α)} {P : κ} {y : α} (k : κ) (v : α)
    (hm : (P, y) ∈ m) (hne : P ≠ k) : (P, y) ∈ mapSetK m k v := by
  induction m with
  | nil => simp at hm
  | cons e rest ih =>
      rcases List.mem_cons.1 hm with he | hr
      · have h1 : e.1 = P := by rw [← he]
        have hek : (e.1 == k) = false := by
          simp only [h1, beq_eq_false_iff_ne, ne_eq]
          exact hne
        rw [show mapSetK (e :: rest) k v = e :: mapSetK rest k v from by
          simp [mapSetK, hek]]
        exact List.mem_cons.2 (Or.inl he)
      · by_cases h : (e.1 == k) = true
        · rw [show mapSetK (e :: rest) k v = (k, v) :: rest from by
            simp [mapSetK, h]]
          exact List.mem_cons_of_mem _ hr
        · rw [show mapSetK (e :: rest) k v = e :: mapSetK rest k v from by
            simp [mapSetK, h]]
          exact List.mem_cons_of_mem _ (ih hr)

/-! ## Claim C3 — duplicate status codes get suffixed keys, rendered as
`"<code> (<n>)"` -/

/-- C3: declaring status 200 three times for one operation stores the
responses under exactly the keys `200`, `200-1`, `200-2` (in that order),
and the synthesizer renders any suffixed key `<code>-<n>` as the display key
`<code> (<n>)` while keeping the prefix `<code>` intact (so `200`,
`200 (1)`, `200 (2)`). -/
theorem c3_response_key_suffixing :
    ((((cursorView c3D3.1).responses).getD []).map Prod.fst =
        ["200", "200-1", "200-2"] ∧
      c3D1.2.responseKey = "200" ∧ c3D2.2.responseKey = "200-1" ∧
      c3D3.2.responseKey = "200-2" ∧
      renderRespKey "200" = "200" ∧ renderRespKey "200-1" = "200 (1)" ∧
      renderRespKey "200-2" = "200 (2)") ∧
    ∀ c s : String, ('-' ∉ c.toList) →
      renderRespKey (c ++ "-" ++ s) = c ++ " (" ++ s ++ ")" := by
  refine ⟨by decide, ?_⟩
  intro c s h
  have hall : ∀ ch ∈ c.toList, (ch != '-') = true := by
    intro ch hm
    simp only [bne_iff_ne, ne_eq]
    intro he; exact h (he ▸ hm)
  have hdata : (c ++ "-" ++ s).toList = c.toList ++ '-' :: s.toList := by
    simp [String.toList, String.data_append]
  unfold renderRespKey
  simp only [hdata]
  rw [takeWhile_append_stop _ _ hall '-' (by decide)]
  have hlen : ¬ c.toList.length = (c.toList ++ '-' :: s.toList).length := by
    simp
  rw [if_neg hlen, drop_append_cons]
  rfl

/-- Witness for C3's general rendering clause at `200-1`. -/
theorem c3_response_key_suffixing_witness :
    renderRespKey ("200" ++ "-" ++ "1") = "200" ++ " (" ++ "1" ++ ")" :=
  c3_response_key_suffixing.2 "200" "1" (by decide)

/-! ## Claim C9 — missing `path`/`method` at snapshot time drops the
submission silently -/

/-- C9: when the cursor's `path` or `method` is absent at response
declaration time, the snapshot is not submitted (the accumulator state is
unchanged), while the declaration itself still completes normally: on any
well-formed state (the cursor's responses reference, when present, points
into the heap, as real JS references always do) the response is stored in
the observable responses map under its computed key. -/
theorem c9_missing_identity_dropped :
    ∀ strLen code desc arg cb (s : DslState),
      s.cursor.path = none ∨ s.cursor.method = none →
      respOk s = true →
      (responseDecl strLen code desc arg cb s).1.acc = s.acc ∧
      (mapGet (((cursorView (responseDecl strLen code desc arg cb s).1).responses).getD [])
        ((responseDecl strLen code desc arg cb s).2.responseKey)).isSome = true := by
  intro strLen code desc arg cb s h hok
  have hcond : ¬(truthyS s.cursor.path = true ∧ truthyS s.cursor.method = true) := by
    rcases h with h | h <;> simp [ensureResponses, h, truthyS]
  cases hresp : s.cursor.responses with
  | none =>
      have hens : ensureResponses s =
          { s with
            cursor := { s.cursor with responses := some s.rheap.length }
            rheap := s.rheap ++ [[]] } := by
        simp [ensureResponses, hresp]
      have hpath : (ensureResponses s).cursor.path = s.cursor.path := by
        rw [hens]
      have hmeth : (ensureResponses s).cursor.method = s.cursor.method := by
        rw [hens]
      constructor
      · simp only [responseDecl]
        rw [hpath, hmeth, if_neg hcond, hens]
      · simp only [responseDecl]
        rw [hpath, hmeth, if_neg hcond, hens]
        simp only [cursorView, Option.map_some', Option.getD_some]
        rw [getD_append_length, set_append_length, getD_append_length]
        simp [mapGet_mapSet_self]
  | some r =>
      have hr : r < s.rheap.length := by
        simpa [respOk, hresp] using hok
      have hens : ensureResponses s = s := by
        simp [ensureResponses, hresp]
      constructor
      · simp only [responseDecl]
        rw [hens, if_neg hcond]
      · simp only [responseDecl]
        rw [hens, if_neg hcond]
        simp only [cursorView, hresp, Option.map_some', Option.getD_some]
        rw [getD_set_lt _ _ _ _ hr]
        simp [mapGet_mapSet_self]

/-- Witness for C9 with a cursor that has a method but no path. -/
theorem c9_missing_identity_dropped_witness :
    (c9St.cursor.path = none ∨ c9St.cursor.method = none) ∧ respOk c9St = true ∧
    (responseDecl wLen 200 "ok" none none c9St).1.acc = c9St.acc :=
  ⟨Or.inl rfl, by decide,
    (c9_missing_identity_dropped wLen 200 "ok" none none c9St (Or.inl rfl)
      (by decide)).1⟩

/-! ## Claim C8 — empty responses synthesize the default
`{"200": {description: "Success"}}` -/

/-- C8: a grouped spec with an empty responses map synthesizes into an
operation whose responses are exactly `{"200": {description: "Success"}}`;
every operation entry in the generated document comes with a non-empty
responses map; and every grouped path renders into the document (so no
operation in the output ever has zero responses). -/
theorem c8_default_response :
    (∀ spec : ApiSpec, spec.responses = [] →
       (specToOp spec).responses = [("200", { description := "Success" })]) ∧
    (∀ specs cfg P pi M op, (P, pi) ∈ (generateDocument specs cfg).paths →
       (M, op) ∈ pi → op.responses ≠ []) ∧
    (∀ specs cfg P ms, (P, ms) ∈ pathGroups specs →
       (jsShow P, ms.map (fun e => (jsShow e.1, specToOp e.2))) ∈
         (generateDocument specs cfg).paths) ∧
    (∀ (specs : List ApiSpec) spec, spec ∈ specs →
       ∃ ms, (spec.path, ms) ∈ pathGroups specs) := by
  have preserve :
      ∀ (l : List ApiSpec) (acc : List (Option String × List (Option String × ApiSpec)))
        (P : Option String),
        (∃ ms, (P, ms) ∈ acc) →
        ∃ ms, (P, ms) ∈ l.foldl
          (fun groups sp =>
            match mapGetK groups sp.path with
            | none => groups ++ [(sp.path, [(sp.method, sp)])]
            | some methods =>
                mapSetK groups sp.path (mapSetK methods sp.method sp))
          acc := by
    intro l
    induction l with
    | nil => intro acc P h; exact h
    | cons sp rest ih =>
        intro acc P h
        obtain ⟨ms, hms⟩ := h
        rw [List.foldl_cons]
        apply ih
        show ∃ ms', (P, ms') ∈ (match mapGetK acc sp.path with
          | none => acc ++ [(sp.path, [(sp.method, sp)])]
          | some methods => mapSetK acc sp.path (mapSetK methods sp.method sp))
        split
        · exact ⟨ms, List.mem_append_left _ hms⟩
        · by_cases hPk : P = sp.path
          · exact ⟨_, by rw [hPk]; exact mem_mapSetK_self _ _ _⟩
          · exact ⟨ms, mem_mapSetK_ne _ _ hms hPk⟩
  refine ⟨?_, ?_, ?_, ?_⟩
  · intro spec h
    simp [specToOp, processResponses, h]
  · intro specs cfg P pi M op hP hM
    simp only [generateDocument, List.mem_map] at hP
    obtain ⟨g, hgmem, hg⟩ := hP
    have hpi : g.2.map (fun ms => (jsShow ms.1, specToOp ms.2)) = pi :=
      congrArg Prod.snd hg
    rw [← hpi] at hM
    simp only [List.mem_map] at hM
    obtain ⟨ms, hmsmem, hms⟩ := hM
    have hop : specToOp ms.2 = op := congrArg Prod.snd hms
    rw [← hop]
    exact processResponses_ne_nil _
  · intro specs cfg P ms h
    simp only [generateDocument]
    exact List.mem_map_of_mem
      (fun g => (jsShow g.1, g.2.map (fun e => (jsShow e.1, specToOp e.2)))) h
  · intro specs spec hmem
    obtain ⟨l1, l2, rfl⟩ := List.append_of_mem hmem
    have hsplit : pathGroups (l1 ++ spec :: l2) =
        l2.foldl
          (fun groups sp =>
            match mapGetK groups sp.path with
            | none => groups ++ [(sp.path, [(sp.method, sp)])]
            | some methods =>
                mapSetK groups sp.path (mapSetK methods sp.method sp))
          ((l1 ++ [spec]).foldl
            (fun groups sp =>
              match mapGetK groups sp.path with
              | none => groups ++ [(sp.path, [(sp.method, sp)])]
              | some methods =>
                  mapSetK groups sp.path (mapSetK methods sp.method sp))
            []) := by
      simp [pathGroups, List.foldl_append]
    rw [hsplit]
    apply preserve
    rw [List.foldl_append]
    set acc1 := l1.foldl
      (fun groups sp =>
        match mapGetK groups sp.path with
        | none => groups ++ [(sp.path, [(sp.method, sp)])]
        | some methods =>
            mapSetK groups sp.path (mapSetK methods sp.method sp))
      [] with hacc1
    simp only [List.foldl_cons, List.foldl_nil]
    show ∃ ms, (spec.path, ms) ∈ (match mapGetK acc1 spec.path with
      | none => acc1 ++ [(spec.path, [(spec.method, spec)])]
      | some methods => mapSetK acc1 spec.path (mapSetK methods spec.method spec))
    split
    · exact ⟨[(spec.method, spec)], List.mem_append_right _ (by simp)⟩
    · exact ⟨_, mem_mapSetK_self _ _ _⟩

/-- Witness for C8 at a concrete spec with no declared responses. -/
theorem c8_default_response_witness :
    noRespSpec.responses = [] ∧
    (specToOp noRespSpec).responses = [("200", { description := "Success" })] :=
  ⟨rfl, c8_default_response.1 noRespSpec rfl⟩

/-! ## Claim C1 — the accumulator's dedup/replacement policy -/

/-- C1: `addApiSpec` appends and indexes a spec whose identity key is
unseen; on a seen key it replaces the stored spec iff the host serialization
(`strLen`, i.e. `JSON.stringify(·).length`) of the new spec is strictly
larger, and leaves the state untouched otherwise; consequently, for one key,
submitting a richer spec after a sparser one retains the richer, and
submitting a sparser one after a richer one leaves the richer unchanged. -/
theorem c1_dedup_policy :
    (∀ strLen spec st, mapGet st.specCache (getSpecKey spec) = none →
       addApiSpec strLen spec st =
         ⟨st.apiSpecs ++ [spec],
          mapSet st.specCache (getSpecKey spec)
            (some st.apiSpecs.length, spec)⟩) ∧
    (∀ strLen spec st i existing,
       mapGet st.specCache (getSpecKey spec) = some (some i, existing) →
       strLen spec > strLen existing →
       addApiSpec strLen spec st =
         ⟨st.apiSpecs.set i spec,
          mapSet st.specCache (getSpecKey spec) (some i, spec)⟩) ∧
    (∀ strLen spec st e, mapGet st.specCache (getSpecKey spec) = some e →
       ¬ strLen spec > strLen e.2 → addApiSpec strLen spec st = st) ∧
    (∀ strLen (sparse rich : ApiSpec) st,
       getSpecKey sparse = getSpecKey rich →
       mapGet st.specCache (getSpecKey sparse) = none →
       strLen rich > strLen sparse →
       (addApiSpec strLen rich (addApiSpec strLen sparse st)).apiSpecs =
           st.apiSpecs ++ [rich] ∧
       mapGet (addApiSpec strLen rich
           (addApiSpec strLen sparse st)).specCache (getSpecKey rich) =
         some (some st.apiSpecs.length, rich) ∧
       addApiSpec strLen sparse (addApiSpec strLen rich st) =
         addApiSpec strLen rich st) := by
  have hmiss : ∀ strLen spec (st : AccState),
      mapGet st.specCache (getSpecKey spec) = none →
      addApiSpec strLen spec st =
        ⟨st.apiSpecs ++ [spec],
         mapSet st.specCache (getSpecKey spec)
           (some st.apiSpecs.length, spec)⟩ := by
    intro strLen spec st h
    simp only [addApiSpec]
    rw [h]
  have hhit : ∀ strLen spec (st : AccState) i existing,
      mapGet st.specCache (getSpecKey spec) = some (some i, existing) →
      strLen spec > strLen existing →
      addApiSpec strLen spec st =
        ⟨st.apiSpecs.set i spec,
         mapSet st.specCache (getSpecKey spec) (some i, spec)⟩ := by
    intro strLen spec st i existing h hgt
    simp only [addApiSpec]
    rw [h]
    simp only [gt_iff_lt, hgt, if_true]
  have hkeep : ∀ strLen spec (st : AccState) e,
      mapGet st.specCache (getSpecKey spec) = some e →
      ¬ strLen spec > strLen e.2 → addApiSpec strLen spec st = st := by
    intro strLen spec st e h hle
    simp only [addApiSpec]
    rw [h]
    simp only [gt_iff_lt] at hle
    simp [hle]
  refine ⟨hmiss, hhit, hkeep, ?_⟩
  intro strLen sparse rich st hkey hnone hgt
  have h1 := hmiss strLen sparse st hnone
  have hget1 : mapGet (addApiSpec strLen sparse st).specCache (getSpecKey rich) =
      some (some st.apiSpecs.length, sparse) := by
    rw [h1, ← hkey]
    exact mapGet_mapSet_self _ _ _
  have h2 := hhit strLen rich (addApiSpec strLen sparse st)
    st.apiSpecs.length sparse hget1 hgt
  refine ⟨?_, ?_, ?_⟩
  · rw [h2, h1]
    exact set_append_length _ _ _
  · rw [h2]
    simp only
    rw [h1]
    simp only
    have : mapSet (mapSet st.specCache (getSpecKey sparse)
        (some st.apiSpecs.length, sparse)) (getSpecKey rich)
        (some st.apiSpecs.length, rich) =
        mapSet (mapSet st.specCache (getSpecKey rich)
        (some st.apiSpecs.length, sparse)) (getSpecKey rich)
        (some st.apiSpecs.length, rich) := by rw [hkey]
    rw [this]
    exact mapGet_mapSet_self _ _ _
  · have h3 := hmiss strLen rich st (hkey ▸ hnone)
    have hget2 : mapGet (addApiSpec strLen rich st).specCache (getSpecKey sparse) =
        some (some st.apiSpecs.length, rich) := by
      rw [h3, hkey]
      exact mapGet_mapSet_self _ _ _
    apply hkeep strLen sparse (addApiSpec strLen rich st) _ hget2
    simp only [gt_iff_lt, not_lt]
    omega

/-- Witness for C1 at concrete sparse/rich specs over the empty accumulator
with the response count standing in for the serialization length. -/
theorem c1_dedup_policy_witness :
    (addApiSpec wLen richSpec (addApiSpec wLen sparseSpec AccState.empty)).apiSpecs
      = AccState.empty.apiSpecs ++ [richSpec] ∧
    addApiSpec wLen sparseSpec (addApiSpec wLen richSpec AccState.empty) =
      addApiSpec wLen richSpec AccState.empty := by
  have h := c1_dedup_policy.2.2.2 wLen sparseSpec richSpec AccState.empty
    (by rfl) (by rfl) (by decide)
  exact ⟨h.1, h.2.2⟩

/-! ## Claim C10 — a supplied callback forces response capture -/

/-- C10: in the overload resolution of `response(...)`, passing an options
object with `captureResponse: false` together with a callback overwrites
`captureResponse` to `true`; hence the capture guard holds for any object
result, and whenever the guard holds the registered test body runs inference
on the extracted payload and resubmits the enriched snapshot to the
accumulator — there is no way to supply a callback and opt out. -/
theorem c10_callback_forces_capture :
    (∀ (o : RespOpts) r, o.captureResponse = some false →
       resolveRespArgs (some (.opts o)) (some r) =
         (some { o with captureResponse := some true }, some r)) ∧
    (∀ (o : RespOpts) r a, o.captureResponse = some false →
       captureRuns (resolveRespArgs (some (.opts o)) (some r)).1 (.vRef a)
         = true) ∧
    (∀ env strLen fuel (pt : PendingTest) (s : DslState) heap cache result
       h1 sr cs vis1 c1,
       pt.testCallback = some result →
       captureRuns pt.responseOptions result = true →
       extractSafeResponse fuel heap result = .ok (h1, sr) →
       generateSchemaFromResponse env h1 sr [] 0 cache = (.ok cs, vis1, c1) →
       runTestPhase env strLen fuel pt s heap cache =
         .ok
           (let s0 := ensureResponses s
            let r := s0.cursor.responses.getD 0
            let resp1 := mapSet (s0.rheap.getD r []) pt.responseKey
              { description := pt.desc
                content := some [("application/json",
                  { schema := cs, exampleVal := some (.jv sr) })]
                headers := pt.responseOptions.bind (fun o => o.headers) }
            ({ s0 with
                rheap := s0.rheap.set r resp1
                acc := addApiSpec strLen
                  { pt.specSnapshot with responses := resp1 } s0.acc },
              h1, c1))) := by
  refine ⟨?_, ?_, ?_⟩
  · intro o r h
    simp [resolveRespArgs, h]
  · intro o r a h
    simp [resolveRespArgs, h, captureRuns, jsTruthy]
  · intro env strLen fuel pt s heap cache result h1 sr cs vis1 c1
      hcb hcap hext hgen
    unfold runTestPhase
    rw [hcb]
    simp only [hcap, if_true]
    rw [hext]
    dsimp only
    rw [hgen]

/-- Witness for C10: declaring `response(200, 'ok',
{captureResponse: false}, cb)` and then running the test body with an object
result still captures and resubmits. -/
theorem c10_callback_forces_capture_witness :
    captureRuns c10Decl.2.responseOptions (.vRef 0) = true ∧
    c10Run = .ok
      (let s0 := ensureResponses c10Decl.1
       let r := s0.cursor.responses.getD 0
       let resp1 := mapSet (s0.rheap.getD r []) c10Decl.2.responseKey
         { description := c10Decl.2.desc
           content := some [("application/json",
             { schema := stringSchema envFalse "payload"
               exampleVal := some (.jv (.vStr "payload")) })]
           headers := c10Decl.2.responseOptions.bind (fun o => o.headers) }
       ({ s0 with
           rheap := s0.rheap.set r resp1
           acc := addApiSpec wLen
             { c10Decl.2.specSnapshot with responses := resp1 }
             s0.acc },
         c10Heap, [])) := by
  constructor
  · rfl
  · exact c10_callback_forces_capture.2.2 envFalse wLen 5 c10Decl.2 c10Decl.1
      c10Heap [] (.vRef 0) c10Heap (.vStr "payload")
      (stringSchema envFalse "payload") [] [] rfl rfl rfl rfl

/-! ## Claim C4 — string format detection priority (corrected: the source
tries UUID between email and date) -/

/-- Counterexample to C4 as stated: on a UUID string the source's detection
returns `format: "uuid"`, whereas the claimed pipeline (email → date →
date-time → URI → IPv4 → IPv6 → plain, with no UUID step) would return a
plain string; so the claimed fixed priority order is not the code's. -/
theorem c4_counterexample :
    (stringSchema envFalse uuidStr).format = some "uuid" ∧
    (stringSchemaClaimed envFalse uuidStr).format = none ∧
    stringSchema envFalse uuidStr ≠ stringSchemaClaimed envFalse uuidStr := by
  refine ⟨rfl, rfl, ?_⟩
  intro h
  have hf := congrArg Schema.format h
  rw [show (stringSchema envFalse uuidStr).format = some "uuid" from rfl] at hf
  rw [show (stringSchemaClaimed envFalse uuidStr).format = none from rfl] at hf
  exact Option.noConfusion hf

/-- C4 amended: detection tries email, then UUID, then — under the host
`Date.parse` guard — date and date-time, then URI, then IPv4, then IPv6,
else plain string, first match winning, always attaching the original string
as `example`; in particular `"2024-01-01T00:00:00Z"` infers `date-time`,
`"2024-01-01"` infers `date`, and `"john@example.com"` infers `email`. -/
theorem c4_format_priority_amended :
    (∀ env s, (stringSchema env s).exampleVal = some (.jv (.vStr s))) ∧
    (∀ env s, emailTest s = true →
       stringSchema env s =
         mkS (some "string") (some "email") none none none none
           (some (.jv (.vStr s)))) ∧
    (∀ env s, emailTest s = false → uuidTest s = true →
       stringSchema env s =
         mkS (some "string") (some "uuid") none none none none
           (some (.jv (.vStr s)))) ∧
    (∀ env s, emailTest s = false → uuidTest s = false →
       env.dateParseOk s = true → dateRe s = true →
       stringSchema env s =
         mkS (some "string") (some "date") none none none none
           (some (.jv (.vStr s)))) ∧
    (∀ env s, emailTest s = false → uuidTest s = false → dateRe s = false →
       env.dateParseOk s = true → dateTimeRe s = true →
       stringSchema env s =
         mkS (some "string") (some "date-time") none none none none
           (some (.jv (.vStr s)))) ∧
    (∀ env s, emailTest s = false → uuidTest s = false →
       (env.dateParseOk s && dateRe s) = false →
       (env.dateParseOk s && dateTimeRe s) = false →
       env.urlOk s = true →
       stringSchema env s =
         mkS (some "string") (some "uri") none none none none
           (some (.jv (.vStr s)))) ∧
    (∀ env s, emailTest s = false → uuidTest s = false →
       (env.dateParseOk s && dateRe s) = false →
       (env.dateParseOk s && dateTimeRe s) = false →
       env.urlOk s = false → ipv4Test s = true →
       stringSchema env s =
         mkS (some "string") (some "ipv4") none none none none
           (some (.jv (.vStr s)))) ∧
    (∀ env s, emailTest s = false → uuidTest s = false →
       (env.dateParseOk s && dateRe s) = false →
       (env.dateParseOk s && dateTimeRe s) = false →
       env.urlOk s = false → ipv4Test s = false → ipv6Test s = true →
       stringSchema env s =
         mkS (some "string") (some "ipv6") none none none none
           (some (.jv (.vStr s)))) ∧
    (∀ env s, emailTest s = false → uuidTest s = false →
       (env.dateParseOk s && dateRe s) = false →
       (env.dateParseOk s && dateTimeRe s) = false →
       env.urlOk s = false → ipv4Test s = false → ipv6Test s = false →
       stringSchema env s =
         mkS (some "string") none none none none none
           (some (.jv (.vStr s)))) ∧
    (∀ env, env.dateParseOk "2024-01-01T00:00:00Z" = true →
       stringSchema env "2024-01-01T00:00:00Z" =
         mkS (some "string") (some "date-time") none none none none
           (some (.jv (.vStr "2024-01-01T00:00:00Z")))) ∧
    (∀ env, env.dateParseOk "2024-01-01" = true →
       stringSchema env "2024-01-01" =
         mkS (some "string") (some "date") none none none none
           (some (.jv (.vStr "2024-01-01")))) ∧
    (∀ env, stringSchema env "john@example.com" =
       mkS (some "string") (some "email") none none none none
         (some (.jv (.vStr "john@example.com")))) := by
  have hemail : ∀ env s, emailTest s = true →
      stringSchema env s =
        mkS (some "string") (some "email") none none none none
          (some (.jv (.vStr s))) := by
    intro env s h; unfold stringSchema; simp [h]
  have hdt : ∀ env s, emailTest s = false → uuidTest s = false →
      dateRe s = false → env.dateParseOk s = true → dateTimeRe s = true →
      stringSchema env s =
        mkS (some "string") (some "date-time") none none none none
          (some (.jv (.vStr s))) := by
    intro env s h1 h2 h3 h4 h5; unfold stringSchema; simp [h1, h2, h3, h4, h5]
  have hd : ∀ env s, emailTest s = false → uuidTest s = false →
      env.dateParseOk s = true → dateRe s = true →
      stringSchema env s =
        mkS (some "string") (some "date") none none none none
          (some (.jv (.vStr s))) := by
    intro env s h1 h2 h3 h4; unfold stringSchema; simp [h1, h2, h3, h4]
  refine ⟨?_, hemail, ?_, hd, hdt, ?_, ?_, ?_, ?_, ?_, ?_, ?_⟩
  · intro env s; unfold stringSchema; split_ifs <;> rfl
  · intro env s h1 h2; unfold stringSchema; simp [h1, h2]
  · intro env s h1 h2 h3 h4 h5; unfold stringSchema; simp [h1, h2, h3, h4, h5]
  · intro env s h1 h2 h3 h4 h5 h6; unfold stringSchema
    simp [h1, h2, h3, h4, h5, h6]
  · intro env s h1 h2 h3 h4 h5 h6 h7; unfold stringSchema
    simp [h1, h2, h3, h4, h5, h6, h7]
  · intro env s h1 h2 h3 h4 h5 h6 h7; unfold stringSchema
    simp [h1, h2, h3, h4, h5, h6, h7]
  · intro env h
    exact hdt env _ (by decide) (by decide) (by decide) h (by decide)
  · intro env h
    exact hd env _ (by decide) (by decide) h (by decide)
  · intro env
    exact hemail env _ (by decide)

/-- Witness for C4's amended claim at the ISO date-time example with a host
whose `Date.parse` accepts it. -/
theorem c4_format_priority_amended_witness :
    stringSchema envTrue "2024-01-01T00:00:00Z" =
      mkS (some "string") (some "date-time") none none none none
        (some (.jv (.vStr "2024-01-01T00:00:00Z"))) :=
  c4_format_priority_amended.2.2.2.2.2.2.2.2.2.1 envTrue rfl

/-! ## Inference-engine lemmas -/

theorem objStep_shift (rec : JSVal → List Nat → SchemaCache →
      Except Unit Schema × List Nat × SchemaCache)
    (kp : String × JSProp) (ps : List (String × Schema)) (rq : List String)
    (ex : List (String × JSVal)) (vis : List Nat) (c : SchemaCache) :
    objStep rec (ps, rq, ex, vis, c) kp =
      (ps ++ (objStep rec ([], [], [], vis, c) kp).1,
       rq ++ (objStep rec ([], [], [], vis, c) kp).2.1,
       ex ++ (objStep rec ([], [], [], vis, c) kp).2.2.1,
       (objStep rec ([], [], [], vis, c) kp).2.2.2.1,
       (objStep rec ([], [], [], vis, c) kp).2.2.2.2) := by
  rcases kp with ⟨k, p⟩
  cases p with
  | throwing => simp [objStep]
  | val v =>
      simp only [objStep]
      rcases hrec : rec v vis c with ⟨res, visB, cB⟩
      cases res with
      | error u => simp
      | ok s =>
          by_cases hnn : v ≠ JSVal.vNull ∧ v ≠ JSVal.vUndefined
          · by_cases hin : valInVis visB v = true
            · simp [hnn, hin]
            · simp [hnn, hin]
          · simp [hnn]

theorem foldl_objStep_decompose (rec : JSVal → List Nat → SchemaCache →
      Except Unit Schema × List Nat × SchemaCache)
    (l : List (String × JSProp)) :
    ∀ (ps : List (String × Schema)) (rq : List String)
      (ex : List (String × JSVal)) (vis : List Nat) (c : SchemaCache),
    l.foldl (objStep rec) (ps, rq, ex, vis, c) =
      (ps ++ (l.foldl (objStep rec) ([], [], [], vis, c)).1,
       rq ++ (l.foldl (objStep rec) ([], [], [], vis, c)).2.1,
       ex ++ (l.foldl (objStep rec) ([], [], [], vis, c)).2.2.1,
       (l.foldl (objStep rec) ([], [], [], vis, c)).2.2.2.1,
       (l.foldl (objStep rec) ([], [], [], vis, c)).2.2.2.2) := by
  induction l with
  | nil => intro ps rq ex vis c; simp
  | cons kp rest ih =>
      intro ps rq ex vis c
      rw [List.foldl_cons, List.foldl_cons, objStep_shift]
      rcases h0 : objStep rec ([], [], [], vis, c) kp with ⟨P0, R0, E0, vis0, c0⟩
      dsimp only
      rw [ih (ps ++ P0) (rq ++ R0) (ex ++ E0) vis0 c0, ih P0 R0 E0 vis0 c0]
      simp [List.append_assoc]

/-- Cycle sentinel for a revisited array (given a cache miss). -/
theorem genSchemaGo_circ_arr (env : JsEnv) (heap : Heap) (a : Nat)
    (vis : List Nat) (cache : SchemaCache) (fuel : Nat)
    (es : List JSProp) (hvis : vis.contains a = true)
    (hc : SchemaCache.get cache a = none) (ha : heap.get a = .arr es) :
    genSchemaGo env heap (fuel + 1) (.vRef a) vis cache =
      (.ok circularArr, vis, cache) := by
  have hmem : a ∈ vis := by simpa using hvis
  simp [genSchemaGo, hc, ha, hmem]

/-- Cycle sentinel for a revisited object (given a cache miss). -/
theorem genSchemaGo_circ_obj (env : JsEnv) (heap : Heap) (a : Nat)
    (vis : List Nat) (cache : SchemaCache) (fuel : Nat)
    (fs : List (String × JSProp)) (hvis : vis.contains a = true)
    (hc : SchemaCache.get cache a = none) (ha : heap.get a = .obj fs) :
    genSchemaGo env heap (fuel + 1) (.vRef a) vis cache =
      (.ok circularObj, vis, cache) := by
  have hmem : a ∈ vis := by simpa using hvis
  simp [genSchemaGo, hc, ha, hmem]

/-- The object branch unfolded (cache miss, first visit). -/
theorem genSchemaGo_obj_eq (env : JsEnv) (heap : Heap) (a : Nat)
    (vis : List Nat) (cache : SchemaCache) (fuel : Nat)
    (fs : List (String × JSProp)) (hvis : vis.contains a = false)
    (hc : SchemaCache.get cache a = none) (ha : heap.get a = .obj fs) :
    genSchemaGo env heap (fuel + 1) (.vRef a) vis cache =
      (let st := (fs.take 10).foldl (objStep (genSchemaGo env heap fuel))
        (([], [], [], a :: vis, cache) : LoopSt)
       let schema := mkS (some "object") none none (some st.1) none
         (if st.2.1.length > 0 then some st.2.1 else none)
         (some (.jobj st.2.2.1))
       (.ok schema, st.2.2.2.1.erase a, SchemaCache.set st.2.2.2.2 a schema)) := by
  have hmem : a ∉ vis := by simpa using hvis
  simp [genSchemaGo, hc, ha, hmem]

theorem mapGet_cons_self {α : Type} (m : List (String × α)) (k : String)
    (x : α) : mapGet ((k, x) :: m) k = some x := by
  simp [mapGet]

theorem mapGet_cons_ne {α : Type} (m : List (String × α)) (k1 k : String)
    (x : α) (h : k1 ≠ k) : mapGet ((k1, x) :: m) k = mapGet m k := by
  simp [mapGet, List.find?_cons, h]

theorem objStep_props (rec : JSVal → List Nat → SchemaCache →
      Except Unit Schema × List Nat × SchemaCache)
    (kp : String × JSProp) (vis : List Nat) (c : SchemaCache) :
    ∃ s, (objStep rec ([], [], [], vis, c) kp).1 = [(kp.1, s)] ∧
      (kp.2 = JSProp.throwing → s = procFailed) := by
  rcases kp with ⟨k, p⟩
  cases p with
  | throwing => exact ⟨procFailed, by simp [objStep], fun _ => rfl⟩
  | val v =>
      simp only [objStep]
      rcases hrec : rec v vis c with ⟨res, visB, cB⟩
      cases res with
      | error u => exact ⟨procFailed, by simp, by simp⟩
      | ok s =>
          by_cases hnn : v ≠ JSVal.vNull ∧ v ≠ JSVal.vUndefined
          · by_cases hin : valInVis visB v = true
            · exact ⟨s, by simp [hnn, hin], by simp⟩
            · exact ⟨s, by simp [hnn, hin], by simp⟩
          · exact ⟨s, by simp [hnn], by simp⟩

theorem objStep_req (rec : JSVal → List Nat → SchemaCache →
      Except Unit Schema × List Nat × SchemaCache)
    (kp : String × JSProp) (vis : List Nat) (c : SchemaCache) :
    (objStep rec ([], [], [], vis, c) kp).2.1 = [] ∨
    (∃ v, kp.2 = JSProp.val v ∧ v ≠ JSVal.vNull ∧ v ≠ JSVal.vUndefined ∧
      (objStep rec ([], [], [], vis, c) kp).2.1 = [kp.1]) := by
  rcases kp with ⟨k, p⟩
  cases p with
  | throwing => exact Or.inl (by simp [objStep])
  | val v =>
      simp only [objStep]
      rcases hrec : rec v vis c with ⟨res, visB, cB⟩
      cases res with
      | error u => exact Or.inl (by simp)
      | ok s =>
          by_cases hnn : v ≠ JSVal.vNull ∧ v ≠ JSVal.vUndefined
          · refine Or.inr ⟨v, rfl, hnn.1, hnn.2, ?_⟩
            by_cases hin : valInVis visB v = true <;> simp [hnn, hin]
          · exact Or.inl (by simp [hnn])

theorem objStep_ex (rec : JSVal → List Nat → SchemaCache →
      Except Unit Schema × List Nat × SchemaCache)
    (kp : String × JSProp) (vis : List Nat) (c : SchemaCache) :
    (objStep rec ([], [], [], vis, c) kp).2.2.1 = [] ∨
    (∃ v, kp.2 = JSProp.val v ∧ v ≠ JSVal.vNull ∧ v ≠ JSVal.vUndefined ∧
      (objStep rec ([], [], [], vis, c) kp).2.2.1 = [(kp.1, v)]) := by
  rcases kp with ⟨k, p⟩
  cases p with
  | throwing => exact Or.inl (by simp [objStep])
  | val v =>
      simp only [objStep]
      rcases hrec : rec v vis c with ⟨res, visB, cB⟩
      cases res with
      | error u => exact Or.inl (by simp)
      | ok s =>
          by_cases hnn : v ≠ JSVal.vNull ∧ v ≠ JSVal.vUndefined
          · by_cases hin : valInVis visB v = true
            · exact Or.inl (by simp [hnn, hin])
            · exact Or.inr ⟨v, rfl, hnn.1, hnn.2, by simp [hnn, hin]⟩
          · exact Or.inl (by simp [hnn])

/-- Every key that ends up `required` was a declared non-null, non-undefined
data value among the processed fields (no safety assumptions). -/
theorem loop_req_mem (rec : JSVal → List Nat → SchemaCache →
      Except Unit Schema × List Nat × SchemaCache)
    (l : List (String × JSProp)) :
    ∀ vis c k, k ∈ (l.foldl (objStep rec) ([], [], [], vis, c)).2.1 →
      ∃ v, (k, JSProp.val v) ∈ l ∧ v ≠ JSVal.vNull ∧ v ≠ JSVal.vUndefined := by
  induction l with
  | nil => intro vis c k h; simp at h
  | cons kp rest ih =>
      intro vis c k h
      rw [List.foldl_cons] at h
      rcases h0 : objStep rec ([], [], [], vis, c) kp with ⟨P0, R0, E0, vis0, c0⟩
      rw [h0, foldl_objStep_decompose] at h
      simp only at h
      rcases List.mem_append.1 h with hR0 | hRest
      · rcases objStep_req rec kp vis c with hz | ⟨v, hv, hn1, hn2, he⟩
        · rw [h0] at hz; simp at hz; rw [hz] at hR0; simp at hR0
        · rw [h0] at he; simp at he; rw [he] at hR0
          simp at hR0
          subst hR0
          refine ⟨v, ?_, hn1, hn2⟩
          rcases kp with ⟨k1, p1⟩
          simp at hv
          rw [hv]
          exact List.mem_cons_self _ _
      · obtain ⟨v, hmem, hn1, hn2⟩ := ih vis0 c0 k hRest
        exact ⟨v, List.mem_cons_of_mem _ hmem, hn1, hn2⟩

/-- Every key in the safe example was a declared non-null, non-undefined
data value among the processed fields (no safety assumptions). -/
theorem loop_ex_mem (rec : JSVal → List Nat → SchemaCache →
      Except Unit Schema × List Nat × SchemaCache)
    (l : List (String × JSProp)) :
    ∀ vis c k w, (k, w) ∈ (l.foldl (objStep rec) ([], [], [], vis, c)).2.2.1 →
      ∃ v, (k, JSProp.val v) ∈ l ∧ v ≠ JSVal.vNull ∧ v ≠ JSVal.vUndefined := by
  induction l with
  | nil => intro vis c k w h; simp at h
  | cons kp rest ih =>
      intro vis c k w h
      rw [List.foldl_cons] at h
      rcases h0 : objStep rec ([], [], [], vis, c) kp with ⟨P0, R0, E0, vis0, c0⟩
      rw [h0, foldl_objStep_decompose] at h
      simp only at h
      rcases List.mem_append.1 h with hE0 | hRest
      · rcases objStep_ex rec kp vis c with hz | ⟨v, hv, hn1, hn2, he⟩
        · rw [h0] at hz; simp at hz; rw [hz] at hE0; simp at hE0
        · rw [h0] at he; simp at he; rw [he] at hE0
          simp at hE0
          refine ⟨v, ?_, hn1, hn2⟩
          rcases kp with ⟨k1, p1⟩
          simp at hv
          rw [hv]
          rw [hE0.1]
          exact List.mem_cons_self _ _
      · obtain ⟨v, hmem, hn1, hn2⟩ := ih vis0 c0 k w hRest
        exact ⟨v, List.mem_cons_of_mem _ hmem, hn1, hn2⟩

/-- A key whose read throws gets exactly the `procFailed` stub in
`properties` (keys assumed unique, as `Object.keys` guarantees). -/
theorem loop_props_throwing (rec : JSVal → List Nat → SchemaCache →
      Except Unit Schema × List Nat × SchemaCache)
    (l : List (String × JSProp)) :
    ∀ vis c k, (k, JSProp.throwing) ∈ l → (l.map Prod.fst).Nodup →
      mapGet ((l.foldl (objStep rec) ([], [], [], vis, c)).1) k =
        some procFailed := by
  induction l with
  | nil => intro vis c k h _; simp at h
  | cons kp rest ih =>
      intro vis c k h hnd
      rw [List.foldl_cons]
      rcases h0 : objStep rec ([], [], [], vis, c) kp with ⟨P0, R0, E0, vis0, c0⟩
      rw [foldl_objStep_decompose]
      simp only
      obtain ⟨s, hs, hst⟩ := objStep_props rec kp vis c
      rw [h0] at hs; simp only at hs
      rcases List.mem_cons.1 h with he | hr
      · have hk : kp.1 = k := by rw [← he]
        have hpt : kp.2 = JSProp.throwing := by rw [← he]
        rw [hs, hst hpt]
        simp [mapGet, hk]
      · have hnd2 : (kp.1 :: rest.map Prod.fst).Nodup := by
          simpa only [List.map_cons] using hnd
        have hnd' := List.nodup_cons.1 hnd2
        have hk : kp.1 ≠ k := by
          intro hkk
          exact hnd'.1 (hkk ▸ List.mem_map_of_mem Prod.fst hr)
        rw [hs]
        rw [show ([(kp.1, s)] : List (String × Schema)) ++
            (rest.foldl (objStep rec) ([], [], [], vis0, c0)).1 =
            (kp.1, s) :: (rest.foldl (objStep rec) ([], [], [], vis0, c0)).1
          from by simp]
        rw [mapGet_cons_ne _ _ _ _ hk]
        exact ih vis0 c0 k hr hnd'.2

/-- The loop's `properties` records exactly the processed keys, in order. -/
theorem loop_props_keys (rec : JSVal → List Nat → SchemaCache →
      Except Unit Schema × List Nat × SchemaCache)
    (l : List (String × JSProp)) :
    ∀ vis c, ((l.foldl (objStep rec) ([], [], [], vis, c)).1).map Prod.fst =
      l.map Prod.fst := by
  induction l with
  | nil => intro vis c; rfl
  | cons kp rest ih =>
      intro vis c
      rw [List.foldl_cons]
      rcases h0 : objStep rec ([], [], [], vis, c) kp with ⟨P0, R0, E0, vis0, c0⟩
      rw [foldl_objStep_decompose]
      simp only
      obtain ⟨s, hs, _⟩ := objStep_props rec kp vis c
      rw [h0] at hs
      simp only at hs
      rw [hs]
      simp [ih vis0 c0]

/-- A processed key whose *recursive inference call* fails (at the loop
state the iteration has reached when it arrives at that key) is stubbed with
`procFailed` in `properties` and excluded from both `required` and the safe
example (keys assumed unique, as `Object.keys` guarantees). -/
theorem loop_errkey (rec : JSVal → List Nat → SchemaCache →
      Except Unit Schema × List Nat × SchemaCache)
    (l1 l2 : List (String × JSProp)) (k : String) (v : JSVal)
    (vis : List Nat) (c : SchemaCache) (u : Unit)
    (hnd : ((l1 ++ (k, JSProp.val v) :: l2).map Prod.fst).Nodup)
    (herr : (rec v
        ((l1.foldl (objStep rec) ([], [], [], vis, c)).2.2.2.1)
        ((l1.foldl (objStep rec) ([], [], [], vis, c)).2.2.2.2)).1 =
      Except.error u) :
    mapGet (((l1 ++ (k, JSProp.val v) :: l2).foldl (objStep rec)
        ([], [], [], vis, c)).1) k = some procFailed ∧
    k ∉ ((l1 ++ (k, JSProp.val v) :: l2).foldl (objStep rec)
        ([], [], [], vis, c)).2.1 ∧
    ∀ w, (k, w) ∉ ((l1 ++ (k, JSProp.val v) :: l2).foldl (objStep rec)
        ([], [], [], vis, c)).2.2.1 := by
  have hmap : (l1 ++ (k, JSProp.val v) :: l2).map Prod.fst =
      l1.map Prod.fst ++ k :: l2.map Prod.fst := by simp
  rw [hmap] at hnd
  have hnd2 := List.nodup_middle.1 hnd
  have hknotin := (List.nodup_cons.1 hnd2).1
  have hk1 : k ∉ l1.map Prod.fst := fun h => hknotin (List.mem_append_left _ h)
  have hk2 : k ∉ l2.map Prod.fst := fun h => hknotin (List.mem_append_right _ h)
  have hkeys := loop_props_keys rec l1 vis c
  rw [List.foldl_append, List.foldl_cons]
  rcases hst1 : l1.foldl (objStep rec) ([], [], [], vis, c)
    with ⟨P1, R1, E1, vis1, c1⟩
  rw [hst1] at hkeys
  simp only at hkeys
  simp only [hst1] at herr
  have hstep : objStep rec (P1, R1, E1, vis1, c1) (k, JSProp.val v) =
      (P1 ++ [(k, procFailed)], R1, E1,
        (rec v vis1 c1).2.1, (rec v vis1 c1).2.2) := by
    simp only [objStep]
    rcases hq : rec v vis1 c1 with ⟨res, visB, cB⟩
    rw [hq] at herr
    simp only at herr
    rw [herr]
  rw [hstep, foldl_objStep_decompose]
  simp only
  have hk1P : k ∉ P1.map Prod.fst := by rw [hkeys]; exact hk1
  refine ⟨?_, ?_, ?_⟩
  · rw [List.append_assoc, List.singleton_append]
    rw [mapGet_append_not_mem _ _ _ hk1P]
    exact mapGet_cons_self _ _ _
  · intro hmem
    rcases List.mem_append.1 hmem with hR1 | hR2
    · obtain ⟨v1, hv1, _, _⟩ := by
        have := loop_req_mem rec l1 vis c k
        rw [hst1] at this
        exact this hR1
      exact hk1 (List.mem_map_of_mem Prod.fst hv1)
    · obtain ⟨v2, hv2, _, _⟩ := loop_req_mem rec l2 _ _ k hR2
      exact hk2 (List.mem_map_of_mem Prod.fst hv2)
  · intro w hmem
    rcases List.mem_append.1 hmem with hE1 | hE2
    · obtain ⟨v1, hv1, _, _⟩ := by
        have := loop_ex_mem rec l1 vis c k w
        rw [hst1] at this
        exact this hE1
      exact hk1 (List.mem_map_of_mem Prod.fst hv1)
    · obtain ⟨v2, hv2, _, _⟩ := loop_ex_mem rec l2 _ _ k w hE2
      exact hk2 (List.mem_map_of_mem Prod.fst hv2)

theorem heapSafe_get (heap : Heap) (hs : heapSafe heap) (a : Nat) :
    hobjSafe (heap.get a) := by
  unfold Heap.get
  cases hg : List.get? heap a with
  | none => intro kp hkp; simp at hkp
  | some h => simpa using hs h (List.get?_mem hg)

theorem objStep_clean_vis (rec : JSVal → List Nat → SchemaCache →
      Except Unit Schema × List Nat × SchemaCache)
    (hrec : ∀ v vis c, (rec v vis c).2.1 = vis ∧
      ∃ s, (rec v vis c).1 = Except.ok s)
    (kp : String × JSProp) (vis : List Nat) (c : SchemaCache) :
    (objStep rec ([], [], [], vis, c) kp).2.2.2.1 = vis := by
  rcases kp with ⟨k, p⟩
  cases p with
  | throwing => simp [objStep]
  | val v =>
      obtain ⟨hv, s, hok⟩ := hrec v vis c
      simp only [objStep]
      rcases hr : rec v vis c with ⟨res, visB, cB⟩
      rw [hr] at hv hok
      simp only at hv hok
      subst hv
      cases res with
      | error u => simp at hok
      | ok s' =>
          by_cases hnn : v ≠ JSVal.vNull ∧ v ≠ JSVal.vUndefined
          · by_cases hin : valInVis visB v = true <;> simp [hnn, hin]
          · simp [hnn]

theorem loop_clean (rec : JSVal → List Nat → SchemaCache →
      Except Unit Schema × List Nat × SchemaCache)
    (hrec : ∀ v vis c, (rec v vis c).2.1 = vis ∧
      ∃ s, (rec v vis c).1 = Except.ok s)
    (l : List (String × JSProp)) :
    ∀ vis c, (l.foldl (objStep rec) ([], [], [], vis, c)).2.2.2.1 = vis := by
  induction l with
  | nil => intro vis c; rfl
  | cons kp rest ih =>
      intro vis c
      rw [List.foldl_cons]
      have hv := objStep_clean_vis rec hrec kp vis c
      rcases h0 : objStep rec ([], [], [], vis, c) kp with ⟨P0, R0, E0, vis0, c0⟩
      rw [h0] at hv
      simp only at hv
      subst hv
      rw [foldl_objStep_decompose]
      simp only
      exact ih _ c0

/-- Under a heap with no throwing reads, inference always succeeds and
leaves the visited set exactly as it found it. -/
theorem genSchemaGo_clean (env : JsEnv) (heap : Heap) (hs : heapSafe heap) :
    ∀ fuel v vis c,
      (genSchemaGo env heap fuel v vis c).2.1 = vis ∧
      ∃ s, (genSchemaGo env heap fuel v vis c).1 = Except.ok s := by
  intro fuel
  induction fuel with
  | zero => intro v vis c; exact ⟨rfl, maxDepthSchema, rfl⟩
  | succ fuel ih =>
      intro v vis c
      cases v with
      | vNull => exact ⟨rfl, _, rfl⟩
      | vUndefined => exact ⟨rfl, _, rfl⟩
      | vStr s => exact ⟨rfl, _, rfl⟩
      | vNum q => exact ⟨rfl, _, rfl⟩
      | vBool b => exact ⟨rfl, _, rfl⟩
      | vRef a =>
          cases hc : SchemaCache.get c a with
          | some s =>
              constructor
              · simp [genSchemaGo, hc]
              · exact ⟨s, by simp [genSchemaGo, hc]⟩
          | none =>
              cases hh : heap.get a with
              | arr es =>
                  by_cases hv : vis.contains a = true
                  · rw [genSchemaGo_circ_arr env heap a vis c fuel es hv hc hh]
                    exact ⟨rfl, _, rfl⟩
                  · have hsafe := heapSafe_get heap hs a
                    rw [hh] at hsafe
                    have hnv : a ∉ vis := by
                      simpa using (by simpa using hv : ¬ vis.contains a = true)
                    cases es with
                    | nil =>
                        constructor
                        · simp [genSchemaGo, hc, hh, hnv, List.erase_cons_head]
                        · exact ⟨mkS (some "array") none none none
                            (some emptySchema) none (some (.jarr [])),
                            by simp [genSchemaGo, hc, hh, hnv]⟩
                    | cons p es' =>
                        cases p with
                        | throwing =>
                            exact absurd rfl (hsafe .throwing (by simp))
                        | val e0 =>
                            obtain ⟨hvis2, s, hok⟩ := ih e0 (a :: vis) c
                            rcases hr : genSchemaGo env heap fuel e0 (a :: vis) c
                              with ⟨res, v2, c2⟩
                            rw [hr] at hvis2 hok
                            simp only at hvis2 hok
                            subst hvis2
                            cases res with
                            | error u => simp at hok
                            | ok items =>
                                constructor
                                · simp [genSchemaGo, hc, hh, hnv, hr,
                                    List.erase_cons_head]
                                · exact ⟨mkS (some "array") none none none
                                    (some items) none (some (.jarr [e0])),
                                    by simp [genSchemaGo, hc, hh, hnv, hr]⟩
              | obj fs =>
                  by_cases hv : vis.contains a = true
                  · rw [genSchemaGo_circ_obj env heap a vis c fuel fs hv hc hh]
                    exact ⟨rfl, _, rfl⟩
                  · have hvf : vis.contains a = false := by
                      cases hb : vis.contains a
                      · rfl
                      · exact absurd hb hv
                    rw [genSchemaGo_obj_eq env heap a vis c fuel fs hvf hc hh]
                    dsimp only
                    constructor
                    · rw [loop_clean (genSchemaGo env heap fuel)
                        (fun v vis c => ih v vis c) (fs.take 10) (a :: vis) c]
                      exact List.erase_cons_head a vis
                    · exact ⟨_, rfl⟩

/-- Exact characterization of the object-branch loop when the inference
callback always succeeds without touching the visited set (which
`genSchemaGo_clean` provides on safe heaps): `required` collects exactly the
non-null declared keys in order, and the safe example collects exactly those
among them whose value is not in the visited set. -/
theorem loop_char (rec : JSVal → List Nat → SchemaCache →
      Except Unit Schema × List Nat × SchemaCache)
    (hrec : ∀ v vis c, (rec v vis c).2.1 = vis ∧
      ∃ s, (rec v vis c).1 = Except.ok s)
    (l : List (String × JSProp)) :
    ∀ vis c, (∀ kp ∈ l, kp.2 ≠ JSProp.throwing) →
      (l.foldl (objStep rec) ([], [], [], vis, c)).2.1 =
        (l.filter reqPred).map Prod.fst ∧
      (l.foldl (objStep rec) ([], [], [], vis, c)).2.2.1 =
        l.filterMap (exSel vis) := by
  induction l with
  | nil => intro vis c _; exact ⟨rfl, rfl⟩
  | cons kp rest ih =>
      intro vis c hl
      rcases kp with ⟨k, p⟩
      cases p with
      | throwing => exact absurd rfl (hl (k, .throwing) (by simp))
      | val v =>
          obtain ⟨hv, s, hok⟩ := hrec v vis c
          rw [List.foldl_cons]
          have hstep : objStep rec ([], [], [], vis, c) (k, .val v) =
              (([(k, s)] : List (String × Schema)),
               (if v ≠ JSVal.vNull ∧ v ≠ JSVal.vUndefined then [k] else []),
               (if (v ≠ JSVal.vNull ∧ v ≠ JSVal.vUndefined) ∧ valInVis vis v = false
                then [(k, v)] else []),
               vis, (rec v vis c).2.2) := by
            simp only [objStep]
            rcases hr : rec v vis c with ⟨res, visB, cB⟩
            rw [hr] at hv hok
            simp only at hv hok
            cases res with
            | error u => simp at hok
            | ok s' =>
                have hss : s' = s := by simpa using hok
                rw [hss, hv]
                by_cases hnn : v ≠ JSVal.vNull ∧ v ≠ JSVal.vUndefined
                · by_cases hin : valInVis vis v = true
                  · simp [hnn, hin]
                  · have hinf : valInVis vis v = false := by
                      cases hb : valInVis vis v
                      · rfl
                      · exact absurd hb hin
                    simp [hnn, hinf]
                · simp [hnn]
          rw [hstep, foldl_objStep_decompose]
          obtain ⟨hreq, hex⟩ := ih vis (rec v vis c).2.2
            (fun kp hk => hl kp (List.mem_cons_of_mem _ hk))
          simp only
          constructor
          · rw [hreq]
            by_cases hnn : v ≠ JSVal.vNull ∧ v ≠ JSVal.vUndefined
            · simp [List.filter_cons, reqPred, hnn]
            · simp [List.filter_cons, reqPred, hnn]
          · rw [hex]
            by_cases hsel : (v ≠ JSVal.vNull ∧ v ≠ JSVal.vUndefined) ∧
                valInVis vis v = false
            · simp [List.filterMap_cons, exSel, hsel]
            · simp [List.filterMap_cons, exSel, hsel]

theorem arrHeadSafe_get (heap : Heap) (hs : arrHeadSafe heap) (a : Nat)
    (p : JSProp) (es : List JSProp) (hh : heap.get a = .arr (p :: es)) :
    p ≠ JSProp.throwing := by
  unfold Heap.get at hh
  cases hg : List.get? heap a with
  | none => rw [hg] at hh; simp at hh
  | some h =>
      rw [hg] at hh
      simp only [Option.getD_some] at hh
      have := hs h (List.get?_mem hg)
      rw [hh] at this
      exact this

theorem assoc_nodup_eq {α : Type} (l : List (String × α))
    (hnd : (l.map Prod.fst).Nodup) {k : String} {a b : α}
    (ha : (k, a) ∈ l) (hb : (k, b) ∈ l) : a = b := by
  induction l with
  | nil => simp at ha
  | cons e rest ih =>
      have hnd2 : (e.1 :: rest.map Prod.fst).Nodup := by
        simpa only [List.map_cons] using hnd
      have hnd' := List.nodup_cons.1 hnd2
      rcases List.mem_cons.1 ha with hea | hra
      · rcases List.mem_cons.1 hb with heb | hrb
        · have h1 : a = e.2 := by rw [← hea]
          have h2 : b = e.2 := by rw [← heb]
          rw [h1, h2]
        · exfalso
          apply hnd'.1
          have hk : e.1 = k := by rw [← hea]
          rw [hk]
          exact List.mem_map_of_mem Prod.fst hrb
      · rcases List.mem_cons.1 hb with heb | hrb
        · exfalso
          apply hnd'.1
          have hk : e.1 = k := by rw [← heb]
          rw [hk]
          exact List.mem_map_of_mem Prod.fst hra
        · exact ih hnd'.2 hra hrb

/-- A key declared `throwing` never reaches `required` or the safe example
(keys assumed unique). -/
theorem loop_throwing_excluded (rec : JSVal → List Nat → SchemaCache →
      Except Unit Schema × List Nat × SchemaCache)
    (l : List (String × JSProp)) (vis : List Nat) (c : SchemaCache)
    (k : String) (hmem : (k, JSProp.throwing) ∈ l)
    (hnd : (l.map Prod.fst).Nodup) :
    k ∉ (l.foldl (objStep rec) ([], [], [], vis, c)).2.1 ∧
    ∀ w, (k, w) ∉ (l.foldl (objStep rec) ([], [], [], vis, c)).2.2.1 := by
  constructor
  · intro hk
    obtain ⟨v, hv, _, _⟩ := loop_req_mem rec l vis c k hk
    exact JSProp.noConfusion (assoc_nodup_eq l hnd hv hmem)
  · intro w hw
    obtain ⟨v, hv, _, _⟩ := loop_ex_mem rec l vis c k w hw
    exact JSProp.noConfusion (assoc_nodup_eq l hnd hv hmem)

/-- Under a heap whose array heads never throw, inference always returns
(the only unguarded read is an array's element 0). -/
theorem genSchemaGo_ok (env : JsEnv) (heap : Heap) (hs : arrHeadSafe heap) :
    ∀ fuel v vis c, ∃ s, (genSchemaGo env heap fuel v vis c).1 = Except.ok s := by
  intro fuel
  induction fuel with
  | zero => intro v vis c; exact ⟨maxDepthSchema, rfl⟩
  | succ fuel ih =>
      intro v vis c
      cases v with
      | vNull => exact ⟨_, rfl⟩
      | vUndefined => exact ⟨_, rfl⟩
      | vStr s => exact ⟨_, rfl⟩
      | vNum q => exact ⟨_, rfl⟩
      | vBool b => exact ⟨_, rfl⟩
      | vRef a =>
          cases hc : SchemaCache.get c a with
          | some s => exact ⟨s, by simp [genSchemaGo, hc]⟩
          | none =>
              cases hh : heap.get a with
              | arr es =>
                  by_cases hv : vis.contains a = true
                  · rw [genSchemaGo_circ_arr env heap a vis c fuel es hv hc hh]
                    exact ⟨_, rfl⟩
                  · have hnv : a ∉ vis := by
                      simpa using (by simpa using hv : ¬ vis.contains a = true)
                    cases es with
                    | nil =>
                        exact ⟨mkS (some "array") none none none
                          (some emptySchema) none (some (.jarr [])),
                          by simp [genSchemaGo, hc, hh, hnv]⟩
                    | cons p es' =>
                        cases p with
                        | throwing =>
                            exact absurd rfl (arrHeadSafe_get heap hs a _ _ hh)
                        | val e0 =>
                            obtain ⟨s, hok⟩ := ih e0 (a :: vis) c
                            rcases hr : genSchemaGo env heap fuel e0 (a :: vis) c
                              with ⟨res, v2, c2⟩
                            rw [hr] at hok
                            simp only at hok
                            cases res with
                            | error u => simp at hok
                            | ok items =>
                                exact ⟨mkS (some "array") none none none
                                  (some items) none (some (.jarr [e0])),
                                  by simp [genSchemaGo, hc, hh, hnv, hr]⟩
              | obj fs =>
                  by_cases hv : vis.contains a = true
                  · rw [genSchemaGo_circ_obj env heap a vis c fuel fs hv hc hh]
                    exact ⟨_, rfl⟩
                  · have hvf : vis.contains a = false := by
                      cases hb : vis.contains a
                      · rfl
                      · exact absurd hb hv
                    rw [genSchemaGo_obj_eq env heap a vis c fuel fs hvf hc hh]
                    exact ⟨_, rfl⟩

/-! ## Claim C2 — inference terminates with cycle and depth guards -/

/-- C2: `generateSchemaFromResponse` is a total function (it is a
terminating definition); any call beyond depth 10 returns the
`Maximum depth reached` stub; a reference that is already on the current
inference path yields the `Circular reference detected` sentinel (array or
object); in particular a self-cycle `x.self = x` reports the sentinel on the
`self` property; and a 50-level-deep nest returns, with the max-depth stub
eleven `child` links down. -/
theorem c2_inference_termination :
    (∀ env heap v vis depth cache, depth > 10 →
       generateSchemaFromResponse env heap v vis depth cache =
         (.ok maxDepthSchema, vis, cache)) ∧
    (∀ env heap a vis cache fuel es, vis.contains a = true →
       SchemaCache.get cache a = none → heap.get a = .arr es →
       genSchemaGo env heap (fuel + 1) (.vRef a) vis cache =
         (.ok circularArr, vis, cache)) ∧
    (∀ env heap a vis cache fuel fs, vis.contains a = true →
       SchemaCache.get cache a = none → heap.get a = .obj fs →
       genSchemaGo env heap (fuel + 1) (.vRef a) vis cache =
         (.ok circularObj, vis, cache)) ∧
    circularObj.description = some "Circular reference detected" ∧
    circularArr.description = some "Circular reference detected" ∧
    (∀ env heap a vis cache fuel rest,
       heap.get a = .obj (("self", JSProp.val (.vRef a)) :: rest) →
       vis.contains a = false → SchemaCache.get cache a = none →
       mapGet (propsOf (genSchemaGo env heap (fuel + 2) (.vRef a) vis cache))
         "self" = some circularObj) ∧
    (∀ env, (genSchemaGo env (deepNest 50) 11 (.vRef 0) [] []).1.toOption.isSome
        = true ∧
      descend 11 ((genSchemaGo env (deepNest 50) 11 (.vRef 0) [] []).1.toOption)
        = some maxDepthSchema) := by
  refine ⟨?_, genSchemaGo_circ_arr, genSchemaGo_circ_obj, rfl, rfl, ?_, ?_⟩
  · intro env heap v vis depth cache h
    unfold generateSchemaFromResponse
    have h0 : 11 - depth = 0 := by omega
    rw [h0]
    rfl
  · intro env heap a vis cache fuel rest hobj hnv hc
    rw [genSchemaGo_obj_eq env heap a vis cache (fuel + 1) _ hnv hc hobj]
    dsimp only
    rw [List.take_succ_cons, List.foldl_cons]
    have hcirc := genSchemaGo_circ_obj env heap a (a :: vis) cache fuel _
      (by simp) hc hobj
    have hstep : objStep (genSchemaGo env heap (fuel + 1))
        ([], [], [], a :: vis, cache) ("self", .val (.vRef a)) =
        ([("self", circularObj)], ["self"], [], a :: vis, cache) := by
      simp only [objStep]
      rw [hcirc]
      simp [valInVis]
    rw [hstep, foldl_objStep_decompose]
    simp only [propsOf, resSchema, Except.toOption, Option.bind_some,
      mkS, Schema.properties, Option.getD_some]
    rw [show (([("self", circularObj)] : List (String × Schema)) ++
        ((rest.take 9).foldl (objStep (genSchemaGo env heap (fuel + 1)))
          ([], [], [], a :: vis, cache)).1) =
        ("self", circularObj) ::
        ((rest.take 9).foldl (objStep (genSchemaGo env heap (fuel + 1)))
          ([], [], [], a :: vis, cache)).1 from by simp]
    exact mapGet_cons_self _ _ _
  · intro env
    exact ⟨rfl, rfl⟩

/-- Witness for C2 at the concrete self-cycle heap and a depth-11 call. -/
theorem c2_inference_termination_witness :
    generateSchemaFromResponse envFalse heapSelf (.vRef 0) [] 11 [] =
      (.ok maxDepthSchema, [], []) ∧
    mapGet (propsOf (genSchemaGo envFalse heapSelf 2 (.vRef 0) [] [])) "self"
      = some circularObj :=
  ⟨c2_inference_termination.1 envFalse heapSelf (.vRef 0) [] 11 []
      (by decide),
    c2_inference_termination.2.2.2.2.2.1 envFalse heapSelf 0 [] [] 0 []
      rfl rfl rfl⟩

/-! ## Claim C6 — inference never throws (corrected: the array branch is
unguarded) -/

/-- Counterexample to C6 as stated: on an array whose element-0 access
throws, the inference call itself throws (the exception propagates out), so
"the inference function never throws for any input value" is false — and
this is precisely the array case the claim includes. -/
theorem c6_counterexample :
    (genSchemaGo envFalse heapThrowArr 11 (.vRef 0) [] []).1 = .error () ∧
    ¬ ∃ s, (genSchemaGo envFalse heapThrowArr 11 (.vRef 0) [] []).1 =
      Except.ok s := by
  refine ⟨rfl, ?_⟩
  rintro ⟨s, hs⟩
  rw [show (genSchemaGo envFalse heapThrowArr 11 (.vRef 0) [] []).1 =
    .error () from rfl] at hs
  exact Except.noConfusion hs

/-- C6 amended: a throwing *object property* read, or a failure inside that
property's recursive inference, is caught and stubbed with
`{type: string, description: "Processing failed"}` for that key only; a
failure never propagates past the enclosing object — with `.obj` at the
inspected address the call returns `Except.ok` unconditionally, whatever the
heap holds below it; the overall call on an arbitrary value never throws
provided no array's element-0 access throws — that single read is unguarded
in the source and propagates. -/
theorem c6_inference_safety_amended :
    (∀ env heap, arrHeadSafe heap → ∀ fuel v vis c,
       ∃ s, (genSchemaGo env heap fuel v vis c).1 = Except.ok s) ∧
    (∀ env heap a fields vis cache fuel k, heap.get a = .obj fields →
       vis.contains a = false → SchemaCache.get cache a = none →
       (k, JSProp.throwing) ∈ fields.take 10 →
       ((fields.take 10).map Prod.fst).Nodup →
       mapGet (propsOf (genSchemaGo env heap (fuel + 1) (.vRef a) vis cache)) k
           = some procFailed ∧
       k ∉ reqListOf (genSchemaGo env heap (fuel + 1) (.vRef a) vis cache) ∧
       procFailed.description = some "Processing failed") ∧
    (∀ env heap a fields vis cache fuel, heap.get a = .obj fields →
       ∃ s, (genSchemaGo env heap fuel (.vRef a) vis cache).1 = Except.ok s) ∧
    (∀ env heap a l1 k v l2 vis cache fuel (u : Unit),
       heap.get a = .obj (l1 ++ (k, JSProp.val v) :: l2) →
       vis.contains a = false → SchemaCache.get cache a = none →
       (l1 ++ (k, JSProp.val v) :: l2).length ≤ 10 →
       ((l1 ++ (k, JSProp.val v) :: l2).map Prod.fst).Nodup →
       (genSchemaGo env heap fuel v
           ((l1.foldl (objStep (genSchemaGo env heap fuel))
             ([], [], [], a :: vis, cache)).2.2.2.1)
           ((l1.foldl (objStep (genSchemaGo env heap fuel))
             ([], [], [], a :: vis, cache)).2.2.2.2)).1 = Except.error u →
       mapGet (propsOf (genSchemaGo env heap (fuel + 1) (.vRef a) vis cache)) k
           = some procFailed ∧
       ∃ s, (genSchemaGo env heap (fuel + 1) (.vRef a) vis cache).1 =
         Except.ok s) := by
  refine ⟨genSchemaGo_ok, ?_, ?_, ?_⟩
  · intro env heap a fields vis cache fuel k hobj hnv hc hmem hnd
    rw [genSchemaGo_obj_eq env heap a vis cache fuel fields hnv hc hobj]
    dsimp only
    refine ⟨?_, ?_, rfl⟩
    · simp only [propsOf, resSchema, Except.toOption, Option.bind_some,
        mkS, Schema.properties, Option.getD_some]
      exact loop_props_throwing _ _ (a :: vis) cache k hmem hnd
    · have hexc := loop_throwing_excluded (genSchemaGo env heap fuel)
        (fields.take 10) (a :: vis) cache k hmem hnd
      simp only [reqListOf, resSchema, Except.toOption, Option.bind_some,
        mkS, Schema.required]
      by_cases hlen :
          ((fields.take 10).foldl (objStep (genSchemaGo env heap fuel))
            ([], [], [], a :: vis, cache)).2.1.length > 0
      · rw [if_pos hlen]
        exact hexc.1
      · rw [if_neg hlen]
        exact List.not_mem_nil k
  · intro env heap a fields vis cache fuel hobj
    cases fuel with
    | zero => exact ⟨maxDepthSchema, rfl⟩
    | succ fuel =>
        cases hc : SchemaCache.get cache a with
        | some s => exact ⟨s, by simp [genSchemaGo, hc]⟩
        | none =>
            by_cases hv : vis.contains a = true
            · rw [genSchemaGo_circ_obj env heap a vis cache fuel fields hv hc
                hobj]
              exact ⟨_, rfl⟩
            · have hvf : vis.contains a = false := by
                cases hb : vis.contains a
                · rfl
                · exact absurd hb hv
              rw [genSchemaGo_obj_eq env heap a vis cache fuel fields hvf hc
                hobj]
              exact ⟨_, rfl⟩
  · intro env heap a l1 k v l2 vis cache fuel u hobj hnv hc hlen hnd herr
    rw [genSchemaGo_obj_eq env heap a vis cache fuel _ hnv hc hobj]
    dsimp only
    have htake : (l1 ++ (k, JSProp.val v) :: l2).take 10 =
        l1 ++ (k, JSProp.val v) :: l2 := List.take_of_length_le hlen
    rw [htake]
    obtain ⟨hprops, hreq, hex⟩ := loop_errkey (genSchemaGo env heap fuel)
      l1 l2 k v (a :: vis) cache u hnd herr
    constructor
    · simp only [propsOf, resSchema, Except.toOption, Option.bind_some,
        mkS, Schema.properties, Option.getD_some]
      exact hprops
    · exact ⟨_, rfl⟩

/-- Witness for C6's amended claim: inference returns on a safe heap; a
throwing object property is stubbed locally; and at `{a: null, b: <throwing
array>}` the failing inference of `b` is stubbed with `procFailed` while the
enclosing object call still returns `Except.ok`. -/
theorem c6_inference_safety_amended_witness :
    (∃ s, (genSchemaGo envFalse heapSelf 11 (.vRef 0) [] []).1 = Except.ok s) ∧
    mapGet (propsOf (genSchemaGo envFalse heapThrowProp 11 (.vRef 0) [] []))
      "bad" = some procFailed ∧
    (mapGet (propsOf (genSchemaGo envFalse heapC5 11 (.vRef 0) [] [])) "b" =
        some procFailed ∧
      ∃ s, (genSchemaGo envFalse heapC5 11 (.vRef 0) [] []).1 =
        Except.ok s) := by
  refine ⟨?_, ?_, ?_⟩
  · exact c6_inference_safety_amended.1 envFalse heapSelf
      (by
        intro h hm
        rw [List.mem_singleton.1 hm]
        trivial)
      11 (.vRef 0) [] []
  · exact (c6_inference_safety_amended.2.1 envFalse heapThrowProp 0
      [("bad", .throwing)] [] [] 10 "bad" rfl rfl rfl (by decide) (by decide)).1
  · exact c6_inference_safety_amended.2.2.2 envFalse heapC5 0
      [("a", JSProp.val .vNull)] "b" (.vRef 1) [] [] [] 10 ()
      rfl rfl rfl (by decide) (by decide) rfl

/-! ## Claim C5 — required/example membership during object inference
(corrected: null values are excluded from the example, thrown keys from
both) -/

/-- Counterexample to C5 as stated, at `{a: null, b: A}` with `A` an array
whose element read throws: the key `a` triggered no cycle yet is absent from
the example (null values are filtered out), and `b` has a non-null value yet
is absent from `required` (its inference threw). -/
theorem c5_counterexample : ¬ C5ClaimAt envFalse heapC5 0 := by
  intro h
  have h1 := (h "a" JSVal.vNull (by decide)).2
  have h2 : "a" ∈ exKeysOf (genSchemaGo envFalse heapC5 11 (.vRef 0) [] []) :=
    h1.mpr (by decide)
  exact absurd h2 (by decide)

/-- C5 amended: on a heap with no throwing reads, a processed key enters
`required` iff its declared value is neither `null` nor `undefined`, and
enters the example iff additionally its value is not an object already on
the current inference path (so cyclic values — and, contrary to the original
claim, also null/undefined values — are omitted); a key whose read throws is
excluded from both; and likewise a key whose value's *inference* fails (the
recursive call at the loop state the iteration reaches it with propagates an
exception) is excluded from both `required` and the example. -/
theorem c5_required_example_amended :
    (∀ env heap a fields vis cache fuel,
       heapSafe heap → heap.get a = .obj fields → vis.contains a = false →
       SchemaCache.get cache a = none →
       reqListOf (genSchemaGo env heap (fuel + 1) (.vRef a) vis cache) =
         ((fields.take 10).filter reqPred).map Prod.fst ∧
       exKeysOf (genSchemaGo env heap (fuel + 1) (.vRef a) vis cache) =
         ((fields.take 10).filterMap (exSel (a :: vis))).map Prod.fst) ∧
    (∀ env heap a fields vis cache fuel k, heap.get a = .obj fields →
       vis.contains a = false → SchemaCache.get cache a = none →
       (k, JSProp.throwing) ∈ fields.take 10 →
       ((fields.take 10).map Prod.fst).Nodup →
       k ∉ reqListOf (genSchemaGo env heap (fuel + 1) (.vRef a) vis cache) ∧
       k ∉ exKeysOf (genSchemaGo env heap (fuel + 1) (.vRef a) vis cache)) ∧
    (∀ env heap a l1 k v l2 vis cache fuel (u : Unit),
       heap.get a = .obj (l1 ++ (k, JSProp.val v) :: l2) →
       vis.contains a = false → SchemaCache.get cache a = none →
       (l1 ++ (k, JSProp.val v) :: l2).length ≤ 10 →
       ((l1 ++ (k, JSProp.val v) :: l2).map Prod.fst).Nodup →
       (genSchemaGo env heap fuel v
           ((l1.foldl (objStep (genSchemaGo env heap fuel))
             ([], [], [], a :: vis, cache)).2.2.2.1)
           ((l1.foldl (objStep (genSchemaGo env heap fuel))
             ([], [], [], a :: vis, cache)).2.2.2.2)).1 = Except.error u →
       k ∉ reqListOf (genSchemaGo env heap (fuel + 1) (.vRef a) vis cache) ∧
       k ∉ exKeysOf (genSchemaGo env heap (fuel + 1) (.vRef a) vis cache)) := by
  refine ⟨?_, ?_, ?_⟩
  · intro env heap a fields vis cache fuel hs hobj hnv hc
    rw [genSchemaGo_obj_eq env heap a vis cache fuel fields hnv hc hobj]
    dsimp only
    have hthrow : ∀ kp ∈ fields.take 10, kp.2 ≠ JSProp.throwing := by
      intro kp hkp
      have hsg := heapSafe_get heap hs a
      rw [hobj] at hsg
      exact hsg kp (List.take_subset _ _ hkp)
    obtain ⟨hreq, hex⟩ := loop_char (genSchemaGo env heap fuel)
      (genSchemaGo_clean env heap hs fuel) (fields.take 10) (a :: vis) cache
      hthrow
    constructor
    · simp only [reqListOf, resSchema, Except.toOption, Option.bind_some,
        mkS, Schema.required]
      by_cases hlen :
          ((fields.take 10).foldl (objStep (genSchemaGo env heap fuel))
            ([], [], [], a :: vis, cache)).2.1.length > 0
      · rw [if_pos hlen]
        exact hreq
      · rw [if_neg hlen]
        have h0 : ((fields.take 10).foldl (objStep (genSchemaGo env heap fuel))
            ([], [], [], a :: vis, cache)).2.1 = [] := by
          cases hq : ((fields.take 10).foldl (objStep (genSchemaGo env heap fuel))
              ([], [], [], a :: vis, cache)).2.1 with
          | nil => rfl
          | cons x xs => exact absurd (by rw [hq]; simp) hlen
        rw [← hreq, h0]
        rfl
    · simp only [exKeysOf, resSchema, Except.toOption, Option.bind_some,
        mkS, Schema.exampleVal]
      rw [show (((List.take 10 fields).foldl
          (objStep (genSchemaGo env heap fuel))
          ([], [], [], a :: vis, cache)).2.2.1) =
          List.filterMap (exSel (a :: vis)) (List.take 10 fields) from hex]
      rfl
  · intro env heap a fields vis cache fuel k hobj hnv hc hmem hnd
    rw [genSchemaGo_obj_eq env heap a vis cache fuel fields hnv hc hobj]
    dsimp only
    have hexc := loop_throwing_excluded (genSchemaGo env heap fuel)
      (fields.take 10) (a :: vis) cache k hmem hnd
    constructor
    · simp only [reqListOf, resSchema, Except.toOption, Option.bind_some,
        mkS, Schema.required]
      by_cases hlen :
          ((fields.take 10).foldl (objStep (genSchemaGo env heap fuel))
            ([], [], [], a :: vis, cache)).2.1.length > 0
      · rw [if_pos hlen]
        exact hexc.1
      · rw [if_neg hlen]
        exact List.not_mem_nil k
    · simp only [exKeysOf, resSchema, Except.toOption, Option.bind_some,
        mkS, Schema.exampleVal]
      intro hk
      obtain ⟨p, hp, hpk⟩ := List.mem_map.1 hk
      rcases p with ⟨k1, w⟩
      have hk1 : k1 = k := hpk
      rw [hk1] at hp
      exact hexc.2 w hp
  · intro env heap a l1 k v l2 vis cache fuel u hobj hnv hc hlen hnd herr
    rw [genSchemaGo_obj_eq env heap a vis cache fuel _ hnv hc hobj]
    dsimp only
    have htake : (l1 ++ (k, JSProp.val v) :: l2).take 10 =
        l1 ++ (k, JSProp.val v) :: l2 := List.take_of_length_le hlen
    rw [htake]
    obtain ⟨hprops, hreq, hex⟩ := loop_errkey (genSchemaGo env heap fuel)
      l1 l2 k v (a :: vis) cache u hnd herr
    constructor
    · simp only [reqListOf, resSchema, Except.toOption, Option.bind_some,
        mkS, Schema.required]
      by_cases hl : ((l1 ++ (k, JSProp.val v) :: l2).foldl
          (objStep (genSchemaGo env heap fuel))
          ([], [], [], a :: vis, cache)).2.1.length > 0
      · rw [if_pos hl]
        exact hreq
      · rw [if_neg hl]
        exact List.not_mem_nil k
    · simp only [exKeysOf, resSchema, Except.toOption, Option.bind_some,
        mkS, Schema.exampleVal]
      intro hk
      obtain ⟨p, hp, hpk⟩ := List.mem_map.1 hk
      rcases p with ⟨k1, w⟩
      have hk1 : k1 = k := hpk
      rw [hk1] at hp
      exact hex w hp

/-- Witness for C5's amended claim: at the self-cycle object, `self` is
required (non-null value) but omitted from the example (its value is the
object itself, which is on the path); and at `{a: null, b: <throwing
array>}` the key `b` — whose inference throws — is excluded from both
`required` and the example. -/
theorem c5_required_example_amended_witness :
    (reqListOf (genSchemaGo envFalse heapSelf 11 (.vRef 0) [] []) =
      (([("self", JSProp.val (.vRef 0))].take 10).filter reqPred).map
        Prod.fst ∧
    exKeysOf (genSchemaGo envFalse heapSelf 11 (.vRef 0) [] []) =
      (([("self", JSProp.val (.vRef 0))].take 10).filterMap
        (exSel (0 :: []))).map Prod.fst) ∧
    ("b" ∉ reqListOf (genSchemaGo envFalse heapC5 11 (.vRef 0) [] []) ∧
     "b" ∉ exKeysOf (genSchemaGo envFalse heapC5 11 (.vRef 0) [] [])) :=
  ⟨c5_required_example_amended.1 envFalse heapSelf 0
    [("self", JSProp.val (.vRef 0))] [] [] 10
    (by
      intro h hm
      rw [List.mem_singleton.1 hm]
      intro kp hkp
      rw [List.mem_singleton.1 hkp]
      simp)
    rfl rfl rfl,
   c5_required_example_amended.2.2 envFalse heapC5 0
    [("a", JSProp.val .vNull)] "b" (.vRef 1) [] [] [] 10 ()
    rfl rfl rfl (by decide) (by decide) rfl⟩

/-! ## Claim C7 — scope functions restore the cursor (corrected: the
snapshot is shallow, so in-place array pushes survive the restore) -/

/-- Counterexample to C7 as stated: with a pre-existing parameters array on
the cursor, a body that calls `parameter(...)` pushes onto the array that
the snapshot shares by reference, so after `path(url, body)` returns the
observable cursor differs from its pre-call value. -/
theorem c7_counterexample :
    cursorView (pathScope "/x" (parameterOp (pQ "p2")) c7St) ≠ cursorView c7St := by
  intro h
  have h2 := congrArg (fun cv => (cv.parameters.getD []).length) h
  exact absurd h2 (by decide)

/-- C7 amended: `path` and `operation` always restore the cursor *record*
(every field, including the parameters-array and responses-map references)
to its pre-call value; the body of `operation` runs with `method`
lowercased, the given `summary`, and a freshly allocated empty `responses`
map, all other cursor fields unchanged at entry; the body of `path` runs
with only `path` changed — in particular it *shares* the pre-call responses
map; when the pre-call cursor holds neither a parameters array nor a
responses map the observable cursor value is fully restored; but since the
snapshot is a shallow spread, in-place pushes to a pre-existing shared
parameters array — and likewise in-place `response(...)` writes to a
pre-existing shared responses map — survive the restore, as the closing
concrete scenario shows. -/
theorem c7_scope_restore_amended :
    (∀ url body (s : DslState), (pathScope url body s).cursor = s.cursor) ∧
    (∀ m sum body (s : DslState),
       (operationScope m sum body s).cursor = s.cursor) ∧
    (∀ (m sum : String) (s : DslState),
       ∃ c1 : Cursor,
         (∀ body, operationScope m sum body s =
           { body { s with
               cursor := c1
               rheap := s.rheap ++ [[]] } with cursor := s.cursor }) ∧
         c1.method = some m.toLower ∧ c1.summary = some sum ∧
         c1.responses = some s.rheap.length ∧
         (cursorView { s with
             cursor := c1
             rheap := s.rheap ++ [[]] }).responses = some [] ∧
         c1.path = s.cursor.path ∧
         c1.description = s.cursor.description ∧ c1.tags = s.cursor.tags ∧
         c1.parameters = s.cursor.parameters ∧
         c1.requestBody = s.cursor.requestBody ∧
         c1.security = s.cursor.security) ∧
    (∀ (url : String) (s : DslState),
       ∃ c1 : Cursor,
         (∀ body, pathScope url body s =
           { body { s with cursor := c1 } with cursor := s.cursor }) ∧
         c1.path = some url ∧ c1.method = s.cursor.method ∧
         c1.summary = s.cursor.summary ∧
         c1.description = s.cursor.description ∧ c1.tags = s.cursor.tags ∧
         c1.parameters = s.cursor.parameters ∧
         c1.requestBody = s.cursor.requestBody ∧
         c1.responses = s.cursor.responses ∧
         c1.security = s.cursor.security) ∧
    (∀ url body (s : DslState), s.cursor.parameters = none →
       s.cursor.responses = none →
       cursorView (pathScope url body s) = cursorView s) ∧
    (∀ m sum body (s : DslState), s.cursor.parameters = none →
       s.cursor.responses = none →
       cursorView (operationScope m sum body s) = cursorView s) ∧
    cursorView (pathScope "/x" c7LeakBody c7RespSt) ≠ cursorView c7RespSt := by
  refine ⟨fun url body s => rfl, fun m sum body s => rfl, ?_, ?_, ?_, ?_, ?_⟩
  · intro m sum s
    refine ⟨{ s.cursor with
        method := some m.toLower
        summary := some sum
        responses := some s.rheap.length }, fun body => rfl, rfl, rfl, rfl,
      ?_, rfl, rfl, rfl, rfl, rfl, rfl⟩
    have hget : ((s.rheap ++ [[]]).getD s.rheap.length []) = [] :=
      getD_append_length _ _ _
    simp [cursorView, hget]
  · intro url s
    exact ⟨{ s.cursor with path := some url },
      fun body => rfl, rfl, rfl, rfl, rfl, rfl, rfl, rfl, rfl, rfl⟩
  · intro url body s h1 h2
    unfold cursorView pathScope
    simp [h1, h2]
  · intro m sum body s h1 h2
    unfold cursorView operationScope
    simp [h1, h2]
  · intro h
    have h2 := congrArg (fun cv => ((cv.responses).getD []).length) h
    exact absurd h2 (by decide)

/-- Witness for C7's amended claim: a cursor holding neither a parameters
array nor a responses map is fully restored (observably) after a `path`
scope whose body sets tags. -/
theorem c7_scope_restore_amended_witness :
    c7Clean.cursor.parameters = none ∧ c7Clean.cursor.responses = none ∧
    cursorView (pathScope "/p" (tagsOp ["x"]) c7Clean) = cursorView c7Clean :=
  ⟨rfl, rfl,
    c7_scope_restore_amended.2.2.2.2.1 "/p" (tagsOp ["x"]) c7Clean rfl rfl⟩

end JestSwag
